import Mathlib

/-!
# test-push: a verification development

Shallow embedding of `push/test-push.go`, the command-line uploader that reads a
directory with exam metadata, PDF files and a solutions table and posts them to a
fixed server.

Conventions of the embedding.

* A Go `string` is a `List Char` (`Str`).  The program only inspects strings through
  the one-byte ASCII separators `\n`, `;` and the suffix `m`, through their length
  and through equality, so the byte view and the character view agree.
* `os.Exit` (reached through `die`) is the `Outcome.exit` result; a function of the
  program is a `Prog`: it receives the effects performed so far and gives back an
  outcome together with the extended list of effects.
* The file system and the server are an `Env` of oracles.
* `int`, `int16`, `int64` are `Int`; the range checks of `strconv` are explicit.
-/

namespace TestPush

/-- A Go string. -/
abbrev Str := List Char

/-! ## Data model (source lines 27-41) -/

/-- The `Test` struct. -/
structure Test where
  ID : Int
  StudentGroup : Str
  Title : Str
  Temps : Int
  Assignatura : Str
  Especialitat : Str
  GenDate : Int
  NumPermutations : Int
deriving DecidableEq

/-- The zero value of `Test`, the initial value of the named result of
`readTestMetadata`. -/
def Test.zero : Test :=
  { ID := 0, StudentGroup := [], Title := [], Temps := 0, Assignatura := [],
    Especialitat := [], GenDate := 0, NumPermutations := 0 }

/-- The `Permutation` struct. -/
structure Permutation where
  Index : Int
  Solutions : Str
deriving DecidableEq

/-! ## Effects -/

/-- The content of one part of a multipart form: the `gob` encoding of a record is
kept as the record itself, a copied file as its bytes. -/
inductive Payload where
  | gobTest (t : Test)
  | gobPermutation (p : Permutation)
  | bytes (b : Str)
deriving DecidableEq

/-- One form file of a multipart body (`CreateFormFile(fieldname, filename)` and
what was written to it). -/
structure Part where
  fieldName : Str
  fileName : Str
  payload : Payload
deriving DecidableEq

/-- The request built by `http.NewRequest(method, url, &body)`. -/
structure Request where
  method : Str
  url : Str
  body : List Part
deriving DecidableEq

/-- The `Location` header of a response as the HTTP client sees it: no header (or an
empty one), a value that `req.URL.Parse` rejects, or the address the value resolves to
against the address of the request. -/
inductive Location where
  | absent
  | unparsable
  | target (url : Str)
deriving DecidableEq

/-- The answer to one request on the wire: a transport error, or a response with its
status code, its `Location` header and a body that `ioutil.ReadAll` either can read
(`some`) or not (`none`).  As the result of `client.Do`, `transportError` stands for a
non-nil error. -/
inductive Reply where
  | transportError
  | response (status : Int) (location : Location) (body : Option Str)
deriving DecidableEq

/-- The observable effects, in program order. -/
inductive Event where
  | fileOpen (directory name : Str)
  | warning (key value : Str)
  | httpRequest (req : Request)
  | printKey (key : Str)
  | printStatus (status : Int)
deriving DecidableEq

/-- The environment of one run.  `canOpen d f` says whether
`os.Open(path.Join(d, f))` succeeds, `readAll d f` is the result of
`ioutil.ReadAll` on that file (`none` is a read error), `copied d f` are the bytes
`io.Copy` transfers from it, and `http` answers a request given the effects that
preceded it; every request that reaches the wire is put to it, the ones the client
issues itself when it follows a redirect included. -/
structure Env where
  canOpen : Str → Str → Bool
  readAll : Str → Str → Option Str
  copied : Str → Str → Str
  http : List Event → Request → Reply

/-- How a call ends: it returns a value or the process exits with a code. -/
inductive Outcome (α : Type) where
  | ret (a : α)
  | exit (code : Nat)
deriving DecidableEq

/-- A program fragment: from the effects so far to an outcome and the effects after
it. -/
def Prog (α : Type) : Type := List Event → Outcome α × List Event

/-- Sequencing: the rest runs only when the first part returns. -/
def Prog.bind {α β : Type} (m : Prog α) (f : α → Prog β) : Prog β :=
  fun tr =>
    match m tr with
    | (Outcome.ret a, tr1) => f a tr1
    | (Outcome.exit c, tr1) => (Outcome.exit c, tr1)

/-- Returning a value performs no effect. -/
def Prog.pure {α : Type} (a : α) : Prog α := fun tr => (Outcome.ret a, tr)

instance : Monad Prog where
  pure := Prog.pure
  bind := Prog.bind

/-- Append one effect to the trace. -/
def emit (e : Event) : Prog Unit := fun tr => (Outcome.ret (), tr ++ [e])

/-- The function `die` (source lines 18-21): `os.Exit(code)`.  The text written to
standard error is not part of the model. -/
def die {α : Type} (code : Nat) : Prog α := fun tr => (Outcome.exit code, tr)

/-- The function `warn` (source lines 23-25), only called for an unknown field. -/
def warn (key value : Str) : Prog Unit := emit (Event.warning key value)

/-! ## Library functions -/

/-- The call `strings.Split(s, sep)` for a one-byte separator: the pieces of `s`
between the occurrences of `sep`; a string without `sep` (the empty string too)
gives one piece. -/
def Split : Str → Char → List Str
  | [], _ => [[]]
  | c :: cs, sep =>
    if c = sep then [] :: Split cs sep
    else
      match Split cs sep with
      | [] => [[c]]
      | p :: ps => (c :: p) :: ps

/-- The call `strings.HasSuffix(s, suffix)`. -/
def HasSuffix (s suffix : Str) : Bool :=
  suffix.length ≤ s.length && s.drop (s.length - suffix.length) == suffix

/-- The value of a string of decimal digits, `none` when a byte is not a digit
(the loop of `strconv.ParseUint` in base 10, without its overflow cut-off, which
the callers below apply to the exact value). -/
def parseDigits : Str → Nat → Option Nat
  | [], acc => some acc
  | c :: cs, acc =>
    if '0' ≤ c ∧ c ≤ '9' then parseDigits cs (acc * 10 + (c.toNat - '0'.toNat))
    else none

/-- The call `strconv.ParseUint(s, 10, _)` before the range check: a syntax error
for the empty string and for any byte that is not a digit. -/
def ParseUint (s : Str) : Option Nat :=
  if s = [] then none else parseDigits s 0

/-- The call `strconv.ParseInt(s, 10, bitSize)`, `none` when it returns an error:
an optional sign, then digits, and the value must fit in `bitSize` bits two's
complement. -/
def ParseInt (s : Str) (bitSize : Nat) : Option Int :=
  match s with
  | [] => none
  | c :: cs =>
    let neg := decide (c = '-')
    let rest := if c = '+' ∨ c = '-' then cs else s
    match ParseUint rest with
    | none => none
    | some un =>
      let cutoff := 2 ^ (bitSize - 1)
      if !neg && cutoff ≤ un then none
      else if neg && cutoff < un then none
      else some (if neg then -(un : Int) else (un : Int))

/-- The size of `int` (`strconv.IntSize`) on a 64-bit platform. -/
def IntSize : Nat := 64

/-- The call `strconv.Atoi(s)`, which is `ParseInt(s, 10, 0)`. -/
def Atoi (s : Str) : Option Int := ParseInt s IntSize

/-- The conversion `int16(x)` of an `int64`: wrap into the 16-bit range. -/
def toInt16 (x : Int) : Int := (x + 2 ^ 15) % 2 ^ 16 - 2 ^ 15

/-- The verb `%d` of `fmt.Sprintf` on a non-negative integer. -/
def decimal (n : Nat) : Str := Nat.toDigits 10 n

/-- The verb `%d` of `fmt.Sprintf` on an integer. -/
def sprintD (x : Int) : Str :=
  if x < 0 then '-' :: decimal x.natAbs else decimal x.natAbs

/-- The verb `%04d` of `fmt.Sprintf`: at least four characters, zeros added on the
left, after the sign of a negative number. -/
def sprint04D (x : Int) : Str :=
  if x < 0 then
    '-' :: (List.replicate (3 - (decimal x.natAbs).length) '0' ++ decimal x.natAbs)
  else List.replicate (4 - (decimal x.natAbs).length) '0' ++ decimal x.natAbs

/-! ## The program -/

/-- The method `(t *Test) AssignField(key, value)` (source lines 43-78); the
receiver is passed and returned. -/
def AssignField (t : Test) (key value : Str) : Prog Test :=
  if key = "Titol".toList then pure { t with Title := value }
  else if key = "Assignatura".toList then pure { t with Assignatura := value }
  else if key = "Especialitat".toList then pure { t with Especialitat := value }
  else if key = "Temps".toList then
    if HasSuffix value "m".toList then
      let sminutes := value.take (value.length - "m".toList.length)
      match ParseInt sminutes 16 with
      | none => die 5
      | some minutes => pure { t with Temps := toInt16 minutes }
    else die 4
  else if key = "GenDate".toList then
    match ParseInt value 64 with
    | none => die 7
    | some gendate => pure { t with GenDate := gendate }
  else if key = "NumPermutations".toList then
    match Atoi value with
    | none => die 7
    | some numperm => pure { t with NumPermutations := numperm }
  else do
    warn key value
    pure t

/-- The constant `TestServer` (source line 279). -/
def TestServer : Str := "test-server-161210.appspot.com".toList

/-- The call `os.Open(path.Join(directory, name))`; the result says whether the
error is `nil`. -/
def osOpen (env : Env) (directory name : Str) : Prog Bool :=
  fun tr => (Outcome.ret (env.canOpen directory name), tr ++ [Event.fileOpen directory name])

/-- The call `writer.CreateFormFile(fieldname, filename)`, `true` when the error is
`nil`: the writer sits on a `bytes.Buffer`, whose writes do not fail. -/
def CreateFormFile (_writer : List Part) (_fieldname _filename : Str) : Bool := true

/-- The call `gob.NewEncoder(part).Encode(v)` for a `Test` or a `Permutation`,
`true` when the error is `nil`: both are structs of integers and strings, which
`gob` encodes, and the writes go to the buffer. -/
def gobEncode (_v : Payload) : Bool := true

/-- The call `http.NewRequest(method, url, &body)`; the method and the addresses
this program builds are well formed, so the error is `nil`. -/
def NewRequest (method url : Str) (body : List Part) : Option Request :=
  some { method := method, url := url, body := body }

/-- The function `redirectBehavior` of `net/http`: the method of the next request and
whether the body is sent again, `none` when the response is not followed.  On 301, 302
and 303 every method but `GET` and `HEAD` becomes `GET` and the body is dropped; on 307
and 308 method and body are kept (`NewRequest` sets `GetBody` for a `bytes.Buffer`). -/
def redirectBehavior (reqMethod : Str) (status : Int) : Option (Str × Bool) :=
  if status = 301 ∨ status = 302 ∨ status = 303 then
    some (if reqMethod ≠ "GET".toList ∧ reqMethod ≠ "HEAD".toList then "GET".toList
          else reqMethod, false)
  else if status = 307 ∨ status = 308 then some (reqMethod, true)
  else none

/-- The loop of `(*http.Client).do` for the zero-value client, whose redirect policy is
the default one.  `ireq` is the request of the caller, `req` the request now sent, and
the first argument the number of requests the policy still allows.  Every request sent
is an effect.  A redirect status with a `Location` is followed; without the header the
response is handed back; a transport error, a `Location` that does not parse and an
eleventh request (`stopped after 10 redirects`) make `Do` return an error. -/
def clientLoop (env : Env) (ireq : Request) : Nat → Request → Prog Reply
  | 0, _ => pure Reply.transportError
  | hops + 1, req => fun tr =>
    match env.http tr req with
    | Reply.transportError => (Outcome.ret Reply.transportError, tr ++ [Event.httpRequest req])
    | Reply.response status location respBody =>
      match redirectBehavior req.method status with
      | none =>
        (Outcome.ret (Reply.response status location respBody), tr ++ [Event.httpRequest req])
      | some (redirectMethod, includeBody) =>
        match location with
        | Location.absent =>
          (Outcome.ret (Reply.response status location respBody),
            tr ++ [Event.httpRequest req])
        | Location.unparsable =>
          (Outcome.ret Reply.transportError, tr ++ [Event.httpRequest req])
        | Location.target u =>
          clientLoop env ireq hops
            { method := redirectMethod, url := u, body := if includeBody then ireq.body else [] }
            (tr ++ [Event.httpRequest req])

/-- The call `client.Do(request)` on `&http.Client{}` (source lines 179-180 and
260-261): at most ten requests go out, the first of them `request`. -/
def clientDo (env : Env) (request : Request) : Prog Reply :=
  clientLoop env request 10 request

/-- The method `(t *Test) writeToFormFile(writer)` (source lines 80-89); the writer
is the list of parts written so far. -/
def writeToFormFile (t : Test) (writer : List Part) : Prog (List Part) :=
  if !CreateFormFile writer "metadata".toList "metadata.gob".toList then die 8
  else if !gobEncode (Payload.gobTest t) then die 8
  else pure (writer ++ [{ fieldName := "metadata".toList, fileName := "metadata.gob".toList,
                          payload := Payload.gobTest t }])

/-- The function `checkTestMetadata` (source lines 91-99). -/
def checkTestMetadata (env : Env) (directory : Str) : Prog Unit := do
  let ok ← osOpen env directory "metadata.csv".toList
  if !ok then die 2 else pure ()

/-- The loop of `readTestMetadata` (source lines 115-124) over the lines that are
left, `test` being the record built so far. -/
def metadataLoop : List Str → Test → Prog Test
  | [], test => pure test
  | line :: rest, test =>
    if line.length = 0 then metadataLoop rest test
    else
      let parts := Split line ';'
      if parts.length ≠ 2 then die 6
      else do
        let test1 ← AssignField test (parts.getD 0 []) (parts.getD 1 [])
        metadataLoop rest test1

/-- The part of `readTestMetadata` after the file was read (source lines 112-126). -/
def readTestMetadataText (metadataText : Str) : Prog Test := do
  let metadataLines := Split metadataText '\n'
  let test ← metadataLoop metadataLines Test.zero
  pure { test with ID := test.GenDate }

/-- The function `readTestMetadata` (source lines 101-127). -/
def readTestMetadata (env : Env) (directory : Str) : Prog Test := do
  let ok ← osOpen env directory "metadata.csv".toList
  if !ok then die 2
  else
    match env.readAll directory "metadata.csv".toList with
    | none => die 3
    | some metadataText => readTestMetadataText metadataText

/-- The variable `pdfFilenames` (source line 129). -/
def pdfFilenames : List Str := ["alln.pdf".toList, "alls.pdf".toList]

/-- The loop of `checkTestBothPdfs` over the names that are left. -/
def checkPdfsLoop (env : Env) (directory : Str) : List Str → Prog Unit
  | [] => pure ()
  | name :: rest => do
    let ok ← osOpen env directory name
    if !ok then die 2 else checkPdfsLoop env directory rest

/-- The function `checkTestBothPdfs` (source lines 131-141). -/
def checkTestBothPdfs (env : Env) (directory : Str) : Prog Unit :=
  checkPdfsLoop env directory pdfFilenames

/-- The function `createPdfFormFile` (source lines 143-157). -/
def createPdfFormFile (env : Env) (key pdffilename directory : Str) (writer : List Part) :
    Prog (List Part) := do
  let ok ← osOpen env directory pdffilename
  if !ok then die 2
  else if !CreateFormFile writer key pdffilename then die 8
  else pure (writer ++ [{ fieldName := key, fileName := pdffilename,
                          payload := Payload.bytes (env.copied directory pdffilename) }])

/-- The function `createBothPdfFormFiles` (source lines 159-162); both callers pass
two names. -/
def createBothPdfFormFiles (env : Env) (directory : Str) (filenames : List Str)
    (writer : List Part) : Prog (List Part) := do
  let writer1 ← createPdfFormFile env "pdf1".toList (filenames.getD 0 []) directory writer
  createPdfFormFile env "pdf2".toList (filenames.getD 1 []) directory writer1

/-- The end of `PushTest` and of `PushPermutation` (source lines 173-192 and
253-273, the same text): build the request, send it, print the answer. -/
def postForm (env : Env) (url : Str) (body : List Part) : Prog Unit :=
  match NewRequest "POST".toList url body with
  | none => die 11
  | some request => do
    let reply ← clientDo env request
    match reply with
    | Reply.transportError => die 12
    | Reply.response status _ respBody =>
      if status = 200 then
        match respBody with
        | none => die 13
        | some testKey => emit (Event.printKey testKey)
      else emit (Event.printStatus status)

/-- The address of the test upload, `fmt.Sprintf("http://%s/test", TestServer)`. -/
def testUrl : Str := "http://".toList ++ TestServer ++ "/test".toList

/-- The address of a permutation upload,
`fmt.Sprintf("http://%s/test/%d/permutation", TestServer, test.ID)`. -/
def permutationUrl (test : Test) : Str :=
  "http://".toList ++ TestServer ++ "/test/".toList ++ sprintD test.ID ++ "/permutation".toList

/-- The function `PushTest` (source lines 164-193). -/
def PushTest (env : Env) (directory : Str) (test : Test) : Prog Unit := do
  let formWriter ← writeToFormFile test []
  let pdffilenames := ["alln.pdf".toList, "alls.pdf".toList]
  let formWriter1 ← createBothPdfFormFiles env directory pdffilenames formWriter
  postForm env testUrl formWriter1

/-- The loop of `readPermutations` (source lines 209-222) over the lines that are
left: `i` is the number of the first of them, `permutations` the slice built so
far. -/
def permutationsLoop : Nat → List Str → List Permutation → Prog (List Permutation)
  | _, [], permutations => pure permutations
  | i, line :: rest, permutations =>
    if line.length = 0 then permutationsLoop (i + 1) rest permutations
    else
      let parts := Split line ';'
      if parts.length ≠ 2 then die 6
      else if decimal i ≠ parts.getD 0 [] then die 7
      else
        let perm : Permutation := { Index := (i : Int), Solutions := parts.getD 1 [] }
        permutationsLoop (i + 1) rest (permutations ++ [perm])

/-- The part of `readPermutations` after the file was read (source lines 206-223). -/
def readPermutationsText (solutionsText : Str) : Prog (List Permutation) :=
  permutationsLoop 0 (Split solutionsText '\n') []

/-- The function `readPermutations` (source lines 195-224); the parameter `test` is
not used by the source either. -/
def readPermutations (env : Env) (_test : Test) (directory : Str) : Prog (List Permutation) := do
  let ok ← osOpen env directory "solutions.csv".toList
  if !ok then die 2
  else
    match env.readAll directory "solutions.csv".toList with
    | none => die 3
    | some solutionsText => readPermutationsText solutionsText

/-- The file names of `PushPermutation` (source lines 232-235):
`fmt.Sprintf("%04d%s.pdf", perm.Index, suffix)` for the suffixes `n` and `s`. -/
def permutationPdfNames (perm : Permutation) : List Str :=
  ["n".toList, "s".toList].map (fun suffix => sprint04D perm.Index ++ suffix ++ ".pdf".toList)

/-- The function `PushPermutation` (source lines 227-276). -/
def PushPermutation (env : Env) (directory : Str) (test : Test) (perm : Permutation) :
    Prog Unit := do
  let pdffilenames := permutationPdfNames perm
  let formWriter ← createBothPdfFormFiles env directory pdffilenames []
  if !CreateFormFile formWriter "permutation".toList "permutation.gob".toList then die 8
  else if !gobEncode (Payload.gobPermutation perm) then die 8
  else
    let formWriter1 := formWriter ++
      [{ fieldName := "permutation".toList, fileName := "permutation.gob".toList,
         payload := Payload.gobPermutation perm }]
    postForm env (permutationUrl test) formWriter1

/-- The loop at the end of `main` (source lines 297-299) over the permutations that
are left. -/
def pushLoop (env : Env) (directory : Str) (test : Test) : List Permutation → Prog Unit
  | [] => pure ()
  | perm :: rest => do
    PushPermutation env directory test perm
    pushLoop env directory test rest

/-- The function `main` (source lines 281-300); `args` is `flag.Args()`, the
arguments left after `flag.Parse()` (the program defines no flag). -/
def main (env : Env) (args : List Str) : Prog Unit :=
  if args.length ≠ 1 then die 1
  else do
    let directory := args.getD 0 []
    checkTestMetadata env directory
    checkTestBothPdfs env directory
    let test ← readTestMetadata env directory
    PushTest env directory test
    let permutations ← readPermutations env test directory
    pushLoop env directory test permutations

/-- The HTTP requests among a list of effects, in order. -/
def requestsOf : List Event → List Request
  | [] => []
  | Event.httpRequest r :: es => r :: requestsOf es
  | _ :: es => requestsOf es

/-! ## Notions used to state the properties -/

/-- The value a metadata line gives to `GenDate`: the line has the two parts
`GenDate` and a 64-bit decimal integer; `none` for any other line. -/
def genDateOf (line : Str) : Option Int :=
  match Split line ';' with
  | [k, v] => if k = "GenDate".toList then ParseInt v 64 else none
  | _ => none

/-- The value of the last `GenDate` line among `lines`, 0 when there is none. -/
def lastGenDate (lines : List Str) : Int :=
  ((lines.filterMap genDateOf).getLast?).getD 0

/-- The non-empty lines of a file, each with its zero-based line number. -/
def numberedLines (lines : List Str) : List (Nat × Str) :=
  lines.enum.filter (fun p => decide (p.2 ≠ []))

/-- The record `readPermutations` builds for line number `p.1` with text `p.2`. -/
def recordOf (p : Nat × Str) : Permutation :=
  { Index := (p.1 : Int), Solutions := (Split p.2 ';').getD 1 [] }

/-- The four-digit rendering of a number below 10000: thousands, hundreds, tens,
units. -/
def fourDigits (i : Nat) : Str :=
  [Nat.digitChar (i / 1000), Nat.digitChar (i / 100 % 10), Nat.digitChar (i / 10 % 10),
   Nat.digitChar (i % 10)]

/-- A request completes without a transport error: the exchange gives a response,
and the body of a response with status 200, the only one the program reads, can
be read. -/
def Reply.completes : Reply → Bool
  | Reply.transportError => false
  | Reply.response status _ none => decide (status ≠ 200)
  | Reply.response _ _ (some _) => true

/-- The response is a redirect the client acts on instead of handing it to the program:
status 301, 302, 303, 307 or 308 together with a `Location` header. -/
def Reply.redirects : Reply → Bool
  | Reply.transportError => false
  | Reply.response status location _ =>
    decide (status = 301 ∨ status = 302 ∨ status = 303 ∨ status = 307 ∨ status = 308) &&
      decide (location ≠ Location.absent)

/-- The body of the test upload: the metadata and the two PDF files. -/
def testBody (env : Env) (directory : Str) (test : Test) : List Part :=
  [{ fieldName := "metadata".toList, fileName := "metadata.gob".toList,
     payload := Payload.gobTest test },
   { fieldName := "pdf1".toList, fileName := "alln.pdf".toList,
     payload := Payload.bytes (env.copied directory "alln.pdf".toList) },
   { fieldName := "pdf2".toList, fileName := "alls.pdf".toList,
     payload := Payload.bytes (env.copied directory "alls.pdf".toList) }]

/-- The body of a permutation upload: its two PDF files and the record. -/
def permutationBody (env : Env) (directory : Str) (perm : Permutation) : List Part :=
  [{ fieldName := "pdf1".toList, fileName := (permutationPdfNames perm).getD 0 [],
     payload := Payload.bytes (env.copied directory ((permutationPdfNames perm).getD 0 [])) },
   { fieldName := "pdf2".toList, fileName := (permutationPdfNames perm).getD 1 [],
     payload := Payload.bytes (env.copied directory ((permutationPdfNames perm).getD 1 [])) },
   { fieldName := "permutation".toList, fileName := "permutation.gob".toList,
     payload := Payload.gobPermutation perm }]

/-- The end-to-end scenario of the specification (metadata with a title, a generation
date, a permutation count and a duration; one solutions line; every file present), with
a server that answers every request with status 503. -/
def scenarioEnv : Env :=
  { canOpen := fun _ _ => true,
    readAll := fun _ name =>
      if name = "metadata.csv".toList then
        some "Titol;Exam A\nGenDate;1000\nNumPermutations;1\nTemps;90m\n".toList
      else some "0;ABAC\n".toList,
    copied := fun _ _ => [],
    http := fun _ _ => Reply.response 503 Location.absent none }

/-- The scenario with a server that answers every `POST` with status 302 and a
`Location`, and the `GET` that follows with status 200 and a key. -/
def redirectEnv : Env :=
  { canOpen := scenarioEnv.canOpen,
    readAll := scenarioEnv.readAll,
    copied := scenarioEnv.copied,
    http := fun _ req =>
      if req.method = "POST".toList then
        Reply.response 302 (Location.target "http://test-server-161210.appspot.com/done".toList)
          none
      else Reply.response 200 Location.absent (some "key".toList) }

/-- The scenario with a server that answers every request with status 302 and a
`Location`. -/
def redirectLoopEnv : Env :=
  { canOpen := scenarioEnv.canOpen,
    readAll := scenarioEnv.readAll,
    copied := scenarioEnv.copied,
    http := fun _ _ =>
      Reply.response 302 (Location.target "http://test-server-161210.appspot.com/done".toList)
        none }

/-- The text of a solutions file with the `n` well-formed lines `i;A`, `i+1;A`, ...,
each ended by a newline. -/
def solutionsLines : Nat → Nat → Str
  | _, 0 => []
  | i, n + 1 => decimal i ++ ";A\n".toList ++ solutionsLines (i + 1) n

/-! ## Sequencing -/

theorem pure_apply {α : Type} (a : α) (tr : List Event) :
    (pure a : Prog α) tr = (Outcome.ret a, tr) := rfl

theorem bind_apply {α β : Type} (m : Prog α) (f : α → Prog β) (tr : List Event) :
    (m >>= f) tr =
      match m tr with
      | (Outcome.ret a, tr1) => f a tr1
      | (Outcome.exit c, tr1) => (Outcome.exit c, tr1) := rfl

theorem die_apply {α : Type} (c : Nat) (tr : List Event) :
    (die c : Prog α) tr = (Outcome.exit c, tr) := rfl

theorem warn_apply (k v : Str) (tr : List Event) :
    warn k v tr = (Outcome.ret (), tr ++ [Event.warning k v]) := rfl

theorem HasSuffix_m_iff (v : Str) :
    HasSuffix v "m".toList = true ↔ ∃ pre, v = pre ++ ['m'] := by
  constructor
  · intro h
    simp only [HasSuffix, Bool.and_eq_true, decide_eq_true_eq, beq_iff_eq] at h
    refine ⟨v.take (v.length - "m".toList.length), ?_⟩
    have := List.take_append_drop (v.length - "m".toList.length) v
    rw [h.2] at this
    exact this.symm
  · rintro ⟨pre, rfl⟩
    simp [HasSuffix]

theorem toInt16_of_range (n : Int) (h1 : -32768 ≤ n) (h2 : n ≤ 32767) : toInt16 n = n := by
  unfold toInt16
  omega

theorem ParseInt_range (s : Str) (b : Nat) (n : Int) (h : ParseInt s b = some n) :
    -(2 ^ (b - 1) : Int) ≤ n ∧ n < 2 ^ (b - 1) := by
  unfold ParseInt at h
  cases s with
  | nil => simp at h
  | cons c cs =>
    simp only at h
    cases hu : ParseUint (if c = '+' ∨ c = '-' then cs else c :: cs) with
    | none => simp [hu] at h
    | some un =>
      simp only [hu] at h
      by_cases hneg : c = '-'
      · simp only [hneg, decide_True, Bool.not_true, Bool.false_and, Bool.true_and,
          decide_eq_true_eq, if_true] at h
        split at h
        · simp at h
        · split at h
          · simp at h
          · rename_i h2
            simp only [Option.some.injEq] at h
            subst h
            have : (un : Int) ≤ ((2 ^ (b - 1) : Nat) : Int) := by exact_mod_cast Nat.le_of_not_lt h2
            have hp : (0 : Int) < 2 ^ (b - 1) := by positivity
            push_cast at this
            constructor <;> omega
      · simp only [hneg, decide_False, Bool.not_false, Bool.true_and, Bool.false_and,
          decide_eq_true_eq, if_false] at h
        split at h
        · simp at h
        · rename_i h2
          simp at h
          subst h
          have : (un : Int) < ((2 ^ (b - 1) : Nat) : Int) := by exact_mod_cast Nat.lt_of_not_le h2
          have hp : (0 : Int) < 2 ^ (b - 1) := by positivity
          push_cast at this
          constructor <;> omega

/-! ## Decimal rendering and parsing -/

theorem toDigitsCore_acc (n : Nat) : ∀ (fuel : Nat) (ds : List Char), n < fuel →
    Nat.toDigitsCore 10 fuel n ds = Nat.toDigitsCore 10 (n + 1) n [] ++ ds := by
  induction n using Nat.strong_induction_on with
  | _ n ih =>
    intro fuel ds hf
    obtain ⟨f, rfl⟩ : ∃ f, fuel = f + 1 := ⟨fuel - 1, by omega⟩
    simp only [Nat.toDigitsCore]
    by_cases h0 : n / 10 = 0
    · simp [h0]
    · have hlt : n / 10 < n := by omega
      simp only [h0, if_false]
      rw [ih (n / 10) hlt f _ (by omega), ih (n / 10) hlt n [Nat.digitChar (n % 10)] hlt]
      simp

theorem decimal_lt_ten (n : Nat) (h : n < 10) : decimal n = [Nat.digitChar n] := by
  have h0 : n / 10 = 0 := by omega
  have h1 : n % 10 = n := by omega
  simp [decimal, Nat.toDigits, Nat.toDigitsCore, h0, h1]

theorem decimal_ge_ten (n : Nat) (h : 10 ≤ n) :
    decimal n = decimal (n / 10) ++ [Nat.digitChar (n % 10)] := by
  have h0 : n / 10 ≠ 0 := by omega
  have hlt : n / 10 < n := by omega
  simp only [decimal, Nat.toDigits, Nat.toDigitsCore, h0, if_false]
  exact toDigitsCore_acc (n / 10) n _ hlt

theorem digitChar_digit (d : Nat) (h : d < 10) :
    '0' ≤ Nat.digitChar d ∧ Nat.digitChar d ≤ '9' ∧ (Nat.digitChar d).toNat - '0'.toNat = d := by
  interval_cases d <;> decide

theorem parseDigits_snoc (xs : Str) (c : Char) : ∀ acc : Nat,
    parseDigits (xs ++ [c]) acc =
      (parseDigits xs acc).bind (fun a =>
        if '0' ≤ c ∧ c ≤ '9' then some (a * 10 + (c.toNat - '0'.toNat)) else none) := by
  induction xs with
  | nil => intro acc; simp only [List.nil_append, parseDigits, Option.some_bind]
  | cons x xs ih =>
    intro acc
    simp only [List.cons_append, parseDigits]
    split
    · exact ih _
    · rfl

theorem parseDigits_decimal (n : Nat) : parseDigits (decimal n) 0 = some n := by
  induction n using Nat.strong_induction_on with
  | _ n ih =>
    by_cases h : n < 10
    · rw [decimal_lt_ten n h]
      obtain ⟨h1, h2, h3⟩ := digitChar_digit n h
      simp only [parseDigits, h1, h2, h3, and_self, if_true, Nat.zero_mul, Nat.zero_add]
    · have hge : 10 ≤ n := by omega
      rw [decimal_ge_ten n hge, parseDigits_snoc, ih (n / 10) (by omega)]
      obtain ⟨h1, h2, h3⟩ := digitChar_digit (n % 10) (by omega)
      simp only [Option.some_bind, h1, h2, h3, and_self, if_true, Option.some.injEq]
      omega

theorem decimal_head (n : Nat) : ∃ c cs, decimal n = c :: cs ∧ '0' ≤ c ∧ c ≤ '9' := by
  induction n using Nat.strong_induction_on with
  | _ n ih =>
    by_cases h : n < 10
    · rw [decimal_lt_ten n h]
      obtain ⟨h1, h2, _⟩ := digitChar_digit n h
      exact ⟨_, _, rfl, h1, h2⟩
    · obtain ⟨c, cs, hc, h1, h2⟩ := ih (n / 10) (by omega)
      rw [decimal_ge_ten n (by omega), hc]
      exact ⟨c, cs ++ [Nat.digitChar (n % 10)], rfl, h1, h2⟩

theorem ParseInt_sprintD (b : Nat) (n : Int) (h1 : -(2 ^ (b - 1) : Int) ≤ n)
    (h2 : n < 2 ^ (b - 1)) : ParseInt (sprintD n) b = some n := by
  have hP : (((2 ^ (b - 1) : Nat)) : Int) = (2 : Int) ^ (b - 1) := by push_cast; rfl
  rw [← hP] at h1 h2
  unfold sprintD
  obtain ⟨c, cs, hc, hc1, hc2⟩ := decimal_head n.natAbs
  have hu : ParseUint (decimal n.natAbs) = some n.natAbs := by
    simp only [ParseUint, hc, if_false, reduceCtorEq]
    rw [← hc]; exact parseDigits_decimal _
  by_cases hn : n < 0
  · simp only [hn, if_true, ParseInt]
    simp only [or_true, if_true, hu, decide_True, Bool.not_true, Bool.false_and,
      Bool.true_and, decide_eq_true_eq]
    have hle : ¬ (2 ^ (b - 1) < n.natAbs) := by omega
    simp only [Bool.false_eq_true, if_false, hle, Option.some.injEq]
    omega
  · simp only [hn, if_false]
    have hplus : c ≠ '+' := by
      intro e; subst e; exact absurd hc1 (by decide)
    have hminus : c ≠ '-' := by
      intro e; subst e; exact absurd hc1 (by decide)
    rw [hc]
    simp only [ParseInt, hplus, hminus, or_self, if_false, decide_False]
    rw [← hc, hu]
    have hle : ¬ (2 ^ (b - 1) ≤ n.natAbs) := by omega
    simp only [Bool.not_false, Bool.true_and, decide_eq_true_eq, hle, if_false,
      Bool.false_and, Bool.false_eq_true, Option.some.injEq]
    omega

/-! ## `AssignField` -/

/-- C7: for a key outside `Titol`, `Assignatura`, `Especialitat`, `Temps`, `GenDate`,
`NumPermutations`, `AssignField` returns (the process goes on), leaves every field of the
record as it was, and its only effect is one warning. -/
theorem AssignField_unknown (t : Test) (k v : Str) (tr : List Event)
    (hk : k ∉ ["Titol".toList, "Assignatura".toList, "Especialitat".toList, "Temps".toList,
      "GenDate".toList, "NumPermutations".toList]) :
    AssignField t k v tr = (Outcome.ret t, tr ++ [Event.warning k v]) := by
  simp only [List.mem_cons, List.mem_singleton, not_or, List.not_mem_nil, or_false] at hk
  obtain ⟨h1, h2, h3, h4, h5, h6⟩ := hk
  simp only [AssignField, h1, h2, h3, h4, h5, h6, if_false]
  rfl

/-- C7 at the unknown key `Nota`. -/
theorem AssignField_unknown_witness :
    AssignField Test.zero "Nota".toList "10".toList [] =
      (Outcome.ret Test.zero, [] ++ [Event.warning "Nota".toList "10".toList]) :=
  AssignField_unknown Test.zero "Nota".toList "10".toList [] (by decide)

theorem AssignField_Temps_eq (t : Test) (v : Str) (tr : List Event) :
    AssignField t "Temps".toList v tr =
      if HasSuffix v "m".toList then
        match ParseInt (v.take (v.length - 1)) 16 with
        | none => (Outcome.exit 5, tr)
        | some minutes => (Outcome.ret { t with Temps := toInt16 minutes }, tr)
      else (Outcome.exit 4, tr) := by
  have e1 : ("Temps".toList = "Titol".toList) = False := by decide
  have e2 : ("Temps".toList = "Assignatura".toList) = False := by decide
  have e3 : ("Temps".toList = "Especialitat".toList) = False := by decide
  simp only [AssignField, e1, e2, e3, if_false, if_true]
  split
  · have : ("m".toList).length = 1 := rfl
    rw [this]
    cases ParseInt (List.take (v.length - 1) v) 16 <;> rfl
  · rfl

/-- C3: `AssignField("Temps", v)` ends the process with exit code 4 exactly when `v` does
not end with the unit suffix `m`.  When `v` is `pre` followed by `m`, either `pre` parses
as a decimal integer `n` in the signed 16-bit range and `Temps` becomes `n` (nothing else
changes), or the process ends with exit code 5; and the rendering of any 16-bit `n`
followed by `m` does store `n`. -/
theorem AssignField_Temps (t : Test) (v : Str) (tr : List Event) :
    ((AssignField t "Temps".toList v tr).1 = Outcome.exit 4 ↔ ¬ ∃ pre, v = pre ++ "m".toList) ∧
    (∀ pre, v = pre ++ "m".toList →
      (∃ n : Int, ParseInt pre 16 = some n ∧ -32768 ≤ n ∧ n ≤ 32767 ∧
        AssignField t "Temps".toList v tr = (Outcome.ret { t with Temps := n }, tr)) ∨
      (ParseInt pre 16 = none ∧ AssignField t "Temps".toList v tr = (Outcome.exit 5, tr))) ∧
    (∀ n : Int, -32768 ≤ n → n ≤ 32767 →
      AssignField t "Temps".toList (sprintD n ++ "m".toList) tr =
        (Outcome.ret { t with Temps := n }, tr)) := by
  have hiff : ∀ w : Str, HasSuffix w "m".toList = true ↔ ∃ pre, w = pre ++ "m".toList :=
    HasSuffix_m_iff
  have htake : ∀ pre : Str, (pre ++ "m".toList).take ((pre ++ "m".toList).length - 1) = pre := by
    intro pre
    show (pre ++ ['m']).take ((pre ++ ['m']).length - 1) = pre
    simp
  refine ⟨?_, ?_, ?_⟩
  · rw [AssignField_Temps_eq, ← hiff]
    by_cases h : HasSuffix v "m".toList = true
    · simp only [h, if_true, not_true_eq_false, iff_false]
      cases ParseInt (v.take (v.length - 1)) 16 <;> simp
    · rw [if_neg h]
      exact ⟨fun _ => h, fun _ => rfl⟩
  · rintro pre rfl
    rw [AssignField_Temps_eq, (hiff _).2 ⟨pre, rfl⟩, htake]
    cases hp : ParseInt pre 16 with
    | none => right; simp
    | some n =>
      left
      have hr := ParseInt_range pre 16 n hp
      have h1 : -32768 ≤ n := by have := hr.1; norm_num at this; omega
      have h2 : n ≤ 32767 := by have := hr.2; norm_num at this; omega
      refine ⟨n, rfl, h1, h2, ?_⟩
      simp [toInt16_of_range n h1 h2]
  · intro n h1 h2
    rw [AssignField_Temps_eq, (hiff _).2 ⟨sprintD n, rfl⟩, htake,
      ParseInt_sprintD 16 n (by norm_num; omega) (by norm_num; omega)]
    simp [toInt16_of_range n h1 h2]

/-- C3 at the value `90m` of the end-to-end scenario: `Temps` becomes 90. -/
theorem AssignField_Temps_witness :
    AssignField Test.zero "Temps".toList "90m".toList [] =
      (Outcome.ret { Test.zero with Temps := 90 }, []) :=
  (AssignField_Temps Test.zero [] []).2.2 90 (by decide) (by decide)

/-! ## `strings.Split` -/

theorem Split_ne_nil (s : Str) (sep : Char) : Split s sep ≠ [] := by
  cases s with
  | nil => simp [Split]
  | cons c cs =>
    simp only [Split]
    split
    · simp
    · split <;> simp

theorem Split_cons_sep (cs : Str) (sep : Char) : Split (sep :: cs) sep = [] :: Split cs sep := by
  simp [Split]

theorem Split_cons_ne (c : Char) (cs : Str) (sep : Char) (h : c ≠ sep) :
    Split (c :: cs) sep = (c :: (Split cs sep).headD []) :: (Split cs sep).tail := by
  simp only [Split, h, if_false]
  cases hs : Split cs sep with
  | nil => exact absurd hs (Split_ne_nil cs sep)
  | cons p ps => rfl

theorem Split_length (s : Str) (sep : Char) : (Split s sep).length = s.count sep + 1 := by
  induction s with
  | nil => simp [Split]
  | cons c cs ih =>
    by_cases h : c = sep
    · subst h
      rw [Split_cons_sep]
      simp [ih]
    · rw [Split_cons_ne c cs sep h]
      have hne := Split_ne_nil cs sep
      have : (List.count sep (c :: cs)) = List.count sep cs := by
        rw [List.count_cons]
        simp [h]
      rw [this, ← ih]
      cases hs : Split cs sep with
      | nil => exact absurd hs hne
      | cons p ps => simp

theorem Split_of_not_mem (s : Str) (sep : Char) (h : sep ∉ s) : Split s sep = [s] := by
  induction s with
  | nil => rfl
  | cons c cs ih =>
    have hc : c ≠ sep := fun e => h (by simp [e])
    have hcs : sep ∉ cs := fun e => h (List.mem_cons_of_mem _ e)
    rw [Split_cons_ne c cs sep hc, ih hcs]
    rfl

theorem Split_append_sep (k v : Str) (sep : Char) (h : sep ∉ k) :
    Split (k ++ sep :: v) sep = k :: Split v sep := by
  induction k with
  | nil => exact Split_cons_sep v sep
  | cons c cs ih =>
    have hc : c ≠ sep := fun e => h (by simp [e])
    have hcs : sep ∉ cs := fun e => h (List.mem_cons_of_mem _ e)
    rw [List.cons_append, Split_cons_ne c _ sep hc, ih hcs]
    rfl

theorem Split_key_value (k v : Str) (sep : Char) (hk : sep ∉ k) (hv : sep ∉ v) :
    Split (k ++ sep :: v) sep = [k, v] := by
  rw [Split_append_sep k v sep hk, Split_of_not_mem v sep hv]

theorem count_one_split (s : Str) (sep : Char) (h : s.count sep = 1) :
    ∃ k v, s = k ++ sep :: v ∧ sep ∉ k ∧ sep ∉ v := by
  induction s with
  | nil => simp at h
  | cons c cs ih =>
    by_cases hc : c = sep
    · subst hc
      rw [List.count_cons_self] at h
      have h0 : cs.count c = 0 := by omega
      exact ⟨[], cs, rfl, by simp, List.count_eq_zero.1 h0⟩
    · rw [List.count_cons_of_ne (Ne.symm hc)] at h
      obtain ⟨k, v, rfl, hk, hv⟩ := ih h
      refine ⟨c :: k, v, rfl, ?_, hv⟩
      simp only [List.mem_cons, not_or]
      exact ⟨Ne.symm hc, hk⟩

theorem Split_length_two_iff (s : Str) (sep : Char) :
    (Split s sep).length = 2 ↔ s.count sep = 1 := by
  rw [Split_length]; omega

/-! ## The metadata loop -/

theorem metadataLoop_cons_empty (rest : List Str) (t : Test) :
    metadataLoop ([] :: rest) t = metadataLoop rest t := by
  simp [metadataLoop]

theorem metadataLoop_cons_bad (line : Str) (rest : List Str) (t : Test) (tr : List Event)
    (hne : line ≠ []) (hlen : (Split line ';').length ≠ 2) :
    metadataLoop (line :: rest) t tr = (Outcome.exit 6, tr) := by
  have h0 : line.length ≠ 0 := fun e => hne (List.length_eq_zero.1 e)
  simp only [metadataLoop, h0, hlen, if_false, ne_eq, not_false_eq_true, if_true]
  rfl

theorem metadataLoop_cons_kv (line k v : Str) (rest : List Str) (t : Test) (tr : List Event)
    (hs : Split line ';' = [k, v]) :
    metadataLoop (line :: rest) t tr = (AssignField t k v >>= metadataLoop rest) tr := by
  have hne : line ≠ [] := by
    rintro rfl
    simp [Split] at hs
  have h0 : line.length ≠ 0 := fun e => hne (List.length_eq_zero.1 e)
  simp only [metadataLoop, h0, hs, if_false, ne_eq, List.length_cons, List.length_nil,
    not_true_eq_false]
  rfl

theorem AssignField_exit (t : Test) (k v : Str) (tr : List Event) (c : Nat)
    (h : (AssignField t k v tr).1 = Outcome.exit c) : c = 4 ∨ c = 5 ∨ c = 7 := by
  unfold AssignField at h
  split_ifs at h
  · cases h
  · cases h
  · cases h
  · revert h
    simp only []
    cases ParseInt (v.take (v.length - "m".toList.length)) 16 with
    | none => intro h; cases h; simp
    | some n => intro h; cases h
  · cases h; simp
  · revert h
    cases ParseInt v 64 with
    | none => intro h; cases h; simp
    | some n => intro h; cases h
  · revert h
    cases Atoi v with
    | none => intro h; cases h; simp
    | some n => intro h; cases h
  · cases h

theorem AssignField_ret (t t1 : Test) (k v : Str) (tr : List Event)
    (h : (AssignField t k v tr).1 = Outcome.ret t1) :
    t1.ID = t.ID ∧ (k = "GenDate".toList → ParseInt v 64 = some t1.GenDate) ∧
      (k ≠ "GenDate".toList → t1.GenDate = t.GenDate) := by
  unfold AssignField at h
  split_ifs at h with h1 h2 h3 h4 h5 h6 h7
  · cases h; subst h1; exact ⟨rfl, fun hh => absurd hh (by decide), fun _ => rfl⟩
  · cases h; subst h2; exact ⟨rfl, fun hh => absurd hh (by decide), fun _ => rfl⟩
  · cases h; subst h3; exact ⟨rfl, fun hh => absurd hh (by decide), fun _ => rfl⟩
  · revert h
    simp only []
    cases ParseInt (v.take (v.length - "m".toList.length)) 16 with
    | none => intro h; cases h
    | some n => intro h; cases h; subst h4; exact ⟨rfl, fun hh => absurd hh (by decide), fun _ => rfl⟩
  · cases h
  · revert h
    cases hp : ParseInt v 64 with
    | none => intro h; cases h
    | some n => intro h; cases h; exact ⟨rfl, fun _ => rfl, fun hh => absurd h6 hh⟩
  · revert h
    cases Atoi v with
    | none => intro h; cases h
    | some n => intro h; cases h; exact ⟨rfl, fun hh => absurd hh h6, fun _ => rfl⟩
  · cases h; exact ⟨rfl, fun hh => absurd hh h6, fun _ => rfl⟩

theorem length_two {α : Type} (l : List α) (h : l.length = 2) : ∃ a b, l = [a, b] := by
  match l, h with
  | [a, b], _ => exact ⟨a, b, rfl⟩

theorem metadataLoop_exit6 (lines : List Str) : ∀ (t : Test) (tr : List Event),
    (metadataLoop lines t tr).1 = Outcome.exit 6 →
    ∃ line ∈ lines, line ≠ [] ∧ line.count ';' ≠ 1 := by
  induction lines with
  | nil => intro t tr h; cases h
  | cons line rest ih =>
    intro t tr h
    by_cases hne : line = []
    · subst hne
      rw [metadataLoop_cons_empty] at h
      obtain ⟨l, hl, h1, h2⟩ := ih t tr h
      exact ⟨l, List.mem_cons_of_mem _ hl, h1, h2⟩
    · by_cases hlen : (Split line ';').length = 2
      · obtain ⟨k, v, hs⟩ := length_two _ hlen
        rw [metadataLoop_cons_kv line k v rest t tr hs, bind_apply] at h
        rcases ha : AssignField t k v tr with ⟨o, tr1⟩
        rw [ha] at h
        cases o with
        | ret t1 =>
          obtain ⟨l, hl, h1, h2⟩ := ih t1 tr1 h
          exact ⟨l, List.mem_cons_of_mem _ hl, h1, h2⟩
        | exit c =>
          have hc := AssignField_exit t k v tr c (by rw [ha])
          simp only [Outcome.exit.injEq] at h
          omega
      · refine ⟨line, List.mem_cons_self _ _, hne, ?_⟩
        exact fun hc => hlen ((Split_length_two_iff _ _).2 hc)

theorem readTestMetadata_of_file (env : Env) (directory text : Str) (tr : List Event)
    (ho : env.canOpen directory "metadata.csv".toList = true)
    (hr : env.readAll directory "metadata.csv".toList = some text) :
    readTestMetadata env directory tr =
      readTestMetadataText text (tr ++ [Event.fileOpen directory "metadata.csv".toList]) := by
  simp only [readTestMetadata, bind, Prog.bind, osOpen, ho, hr]
  rfl

theorem readTestMetadata_exit6_file (env : Env) (directory : Str) (tr : List Event)
    (h : (readTestMetadata env directory tr).1 = Outcome.exit 6) :
    ∃ text, env.canOpen directory "metadata.csv".toList = true ∧
      env.readAll directory "metadata.csv".toList = some text ∧
      (readTestMetadataText text (tr ++ [Event.fileOpen directory "metadata.csv".toList])).1 =
        Outcome.exit 6 := by
  cases ho : env.canOpen directory "metadata.csv".toList with
  | false =>
    simp only [readTestMetadata, bind, Prog.bind, osOpen, ho] at h
    cases h
  | true =>
    cases hr : env.readAll directory "metadata.csv".toList with
    | none =>
      simp only [readTestMetadata, bind, Prog.bind, osOpen, ho, hr] at h
      cases h
    | some text =>
      rw [readTestMetadata_of_file env directory text tr ho hr] at h
      exact ⟨text, rfl, rfl, h⟩

theorem readTestMetadataText_exit (text : Str) (tr : List Event) (c : Nat)
    (h : (readTestMetadataText text tr).1 = Outcome.exit c) :
    (metadataLoop (Split text '\n') Test.zero tr).1 = Outcome.exit c := by
  simp only [readTestMetadataText, bind, Prog.bind] at h
  rcases hl : metadataLoop (Split text '\n') Test.zero tr with ⟨o, tr1⟩
  rw [hl] at h
  cases o with
  | ret t => cases h
  | exit c1 => exact h

/-- C1 (as amended): `readTestMetadata` splits a line at every semicolon.  A line with
exactly one semicolon gives the key before it and the value after it, neither with a
semicolon, and these go to `AssignField`; a non-empty line with no semicolon or with
two or more ends the process with exit code 6; and exit code 6 only comes from such a
line of the file. -/
theorem readTestMetadata_line_contract :
    (∀ (line : Str) (rest : List Str) (t : Test) (tr : List Event),
        line.count ';' = 1 →
        ∃ k v, line = k ++ ';' :: v ∧ ';' ∉ k ∧ ';' ∉ v ∧ Split line ';' = [k, v] ∧
          metadataLoop (line :: rest) t tr = (AssignField t k v >>= metadataLoop rest) tr) ∧
    (∀ (line : Str) (rest : List Str) (t : Test) (tr : List Event),
        line ≠ [] → line.count ';' ≠ 1 →
        metadataLoop (line :: rest) t tr = (Outcome.exit 6, tr)) ∧
    (∀ (env : Env) (directory : Str) (tr : List Event),
        (readTestMetadata env directory tr).1 = Outcome.exit 6 →
        ∃ text, env.readAll directory "metadata.csv".toList = some text ∧
          ∃ line ∈ Split text '\n', line ≠ [] ∧ line.count ';' ≠ 1) := by
  refine ⟨?_, ?_, ?_⟩
  · intro line rest t tr hc
    obtain ⟨k, v, rfl, hk, hv⟩ := count_one_split line ';' hc
    have hs := Split_key_value k v ';' hk hv
    exact ⟨k, v, rfl, hk, hv, hs, metadataLoop_cons_kv _ k v rest t tr hs⟩
  · intro line rest t tr hne hc
    apply metadataLoop_cons_bad line rest t tr hne
    rwa [ne_eq, Split_length_two_iff]
  · intro env directory tr h
    obtain ⟨text, _, hr, h1⟩ := readTestMetadata_exit6_file env directory tr h
    exact ⟨text, hr, metadataLoop_exit6 _ _ _ (readTestMetadataText_exit text _ 6 h1)⟩

/-- C1, the amended property at the line `a;b;c`, which has two semicolons. -/
theorem readTestMetadata_line_contract_witness :
    metadataLoop ["a;b;c".toList] Test.zero [] = (Outcome.exit 6, []) :=
  readTestMetadata_line_contract.2.1 "a;b;c".toList [] Test.zero [] (by decide) (by decide)

/-- C1 (as stated) fails: the metadata text `a;b;c` has a non-empty line that contains a
semicolon, yet the process ends with exit code 6 and `AssignField` is never reached with
the key `a` and the value `b;c` (no warning for the unknown key `a` is emitted). -/
theorem readTestMetadata_first_semicolon_counterexample :
    ';' ∈ "a;b;c".toList ∧
    readTestMetadataText "a;b;c".toList [] = (Outcome.exit 6, []) ∧
    AssignField Test.zero "a".toList "b;c".toList [] =
      (Outcome.ret Test.zero, [Event.warning "a".toList "b;c".toList]) := by
  decide

theorem Split_line_single (s : Str) (h : '\n' ∉ s) : Split s '\n' = [s] :=
  Split_of_not_mem s '\n' h

theorem permutationsLoop_cons_empty (i : Nat) (rest : List Str) (perms : List Permutation) :
    permutationsLoop i ([] :: rest) perms = permutationsLoop (i + 1) rest perms := by
  simp [permutationsLoop]

theorem permutationsLoop_cons_bad (i : Nat) (line : Str) (rest : List Str)
    (perms : List Permutation) (tr : List Event)
    (hne : line ≠ []) (hlen : (Split line ';').length ≠ 2) :
    permutationsLoop i (line :: rest) perms tr = (Outcome.exit 6, tr) := by
  have h0 : line.length ≠ 0 := fun e => hne (List.length_eq_zero.1 e)
  simp only [permutationsLoop, h0, hlen, if_false, ne_eq, not_false_eq_true, if_true]
  rfl

theorem permutationsLoop_cons_kv (i : Nat) (line k v : Str) (rest : List Str)
    (perms : List Permutation) (tr : List Event) (hs : Split line ';' = [k, v]) :
    permutationsLoop i (line :: rest) perms tr =
      if decimal i = k then
        permutationsLoop (i + 1) rest (perms ++ [{ Index := (i : Int), Solutions := v }]) tr
      else (Outcome.exit 7, tr) := by
  have hne : line ≠ [] := by
    rintro rfl
    simp [Split] at hs
  have h0 : line.length ≠ 0 := fun e => hne (List.length_eq_zero.1 e)
  simp only [permutationsLoop, h0, hs, if_false, ne_eq, List.length_cons, List.length_nil,
    not_true_eq_false, List.getD_cons_zero, List.getD_cons_succ]
  by_cases hd : decimal i = k
  · simp only [hd, not_true_eq_false, if_false, if_true]
  · simp only [hd, not_false_eq_true, if_true, if_false]
    rfl

theorem readTestMetadataText_single (line : Str) (h : '\n' ∉ line) (tr : List Event) :
    readTestMetadataText line tr =
      (metadataLoop [line] Test.zero >>= fun t => pure { t with ID := t.GenDate }) tr := by
  simp only [readTestMetadataText, Split_line_single line h]

theorem metadataLoop_single_kv (line k v : Str) (t : Test) (tr : List Event)
    (hs : Split line ';' = [k, v]) :
    metadataLoop [line] t tr = AssignField t k v tr := by
  rw [metadataLoop_cons_kv line k v [] t tr hs, bind_apply]
  rcases AssignField t k v tr with ⟨o, tr1⟩
  cases o <;> rfl

/-- C5: a line `k;v` whose key and value contain neither a semicolon nor a newline is
split into exactly `[k, v]`.  In the metadata loop the line calls `AssignField k v`; as a
whole metadata file it gives what `AssignField k v` gives on the zero record (then
`ID := GenDate`) and never exit code 6.  In the solutions loop at line number `i` the
line stores `v` unchanged with index `i` when `k` is the decimal rendering of `i`, and
ends with exit code 7, not 6, otherwise. -/
theorem key_value_line_split (k v : Str) (hk1 : ';' ∉ k) (hk2 : '\n' ∉ k) (hv1 : ';' ∉ v)
    (hv2 : '\n' ∉ v) :
    Split (k ++ ';' :: v) ';' = [k, v] ∧
    (∀ (rest : List Str) (t : Test) (tr : List Event),
      metadataLoop ((k ++ ';' :: v) :: rest) t tr =
        (AssignField t k v >>= metadataLoop rest) tr) ∧
    (∀ tr : List Event,
      readTestMetadataText (k ++ ';' :: v) tr =
        (AssignField Test.zero k v >>= fun t => pure { t with ID := t.GenDate }) tr ∧
      (readTestMetadataText (k ++ ';' :: v) tr).1 ≠ Outcome.exit 6) ∧
    (∀ (i : Nat) (rest : List Str) (perms : List Permutation) (tr : List Event),
      permutationsLoop i ((k ++ ';' :: v) :: rest) perms tr =
        if decimal i = k then
          permutationsLoop (i + 1) rest (perms ++ [{ Index := (i : Int), Solutions := v }]) tr
        else (Outcome.exit 7, tr)) ∧
    (∀ tr : List Event,
      readPermutationsText (k ++ ';' :: v) tr =
        if decimal 0 = k then (Outcome.ret [{ Index := 0, Solutions := v }], tr)
        else (Outcome.exit 7, tr)) := by
  have hs := Split_key_value k v ';' hk1 hv1
  have hnl : '\n' ∉ k ++ ';' :: v := by
    simp only [List.mem_append, List.mem_cons, not_or]
    exact ⟨hk2, by decide, hv2⟩
  refine ⟨hs, fun rest t tr => metadataLoop_cons_kv _ k v rest t tr hs, ?_,
    fun i rest perms tr => permutationsLoop_cons_kv i _ k v rest perms tr hs, ?_⟩
  · intro tr
    have e : readTestMetadataText (k ++ ';' :: v) tr =
        (AssignField Test.zero k v >>= fun t => pure { t with ID := t.GenDate }) tr := by
      rw [readTestMetadataText_single _ hnl, bind_apply, bind_apply,
        metadataLoop_single_kv _ k v Test.zero tr hs]
    refine ⟨e, ?_⟩
    rw [e, bind_apply]
    rcases ha : AssignField Test.zero k v tr with ⟨o, tr1⟩
    cases o with
    | ret t => simp [pure_apply]
    | exit c =>
      have hc := AssignField_exit Test.zero k v tr c (by rw [ha])
      simp only [ne_eq, Outcome.exit.injEq]
      omega
  · intro tr
    simp only [readPermutationsText, Split_line_single _ hnl]
    rw [permutationsLoop_cons_kv 0 _ k v [] [] tr hs]
    rfl

/-- C5 at the lines `Titol;Exam A` and `0;ABAC` of the end-to-end scenario: the title
becomes `Exam A` and the solutions string `ABAC`. -/
theorem key_value_line_split_witness :
    (readTestMetadataText "Titol;Exam A".toList [] =
        (Outcome.ret { Test.zero with Title := "Exam A".toList }, [])) ∧
    (readPermutationsText "0;ABAC".toList [] =
        (Outcome.ret [{ Index := 0, Solutions := "ABAC".toList }], [])) :=
  ⟨((key_value_line_split "Titol".toList "Exam A".toList (by decide) (by decide) (by decide)
      (by decide)).2.2.1 []).1.trans (by decide),
   ((key_value_line_split "0".toList "ABAC".toList (by decide) (by decide) (by decide)
      (by decide)).2.2.2.2 []).trans (by decide)⟩

theorem genDateOf_nil : genDateOf [] = none := by
  simp [genDateOf, Split]

theorem metadataLoop_genDate (lines : List Str) : ∀ (t0 t : Test) (tr tr1 : List Event),
    metadataLoop lines t0 tr = (Outcome.ret t, tr1) →
    t.GenDate = ((lines.filterMap genDateOf).getLast?).getD t0.GenDate ∧ t.ID = t0.ID := by
  induction lines with
  | nil =>
    intro t0 t tr tr1 h
    simp only [metadataLoop, pure, Prog.pure, Prod.mk.injEq, Outcome.ret.injEq] at h
    simp [h.1]
  | cons line rest ih =>
    intro t0 t tr tr1 h
    by_cases hne : line = []
    · subst hne
      rw [metadataLoop_cons_empty] at h
      rw [List.filterMap_cons, genDateOf_nil]
      exact ih t0 t tr tr1 h
    · by_cases hlen : (Split line ';').length = 2
      · obtain ⟨k, v, hs⟩ := length_two _ hlen
        rw [metadataLoop_cons_kv line k v rest t0 tr hs, bind_apply] at h
        rcases ha : AssignField t0 k v tr with ⟨o, tr2⟩
        rw [ha] at h
        cases o with
        | exit c => cases h
        | ret t1 =>
          obtain ⟨hg, hid⟩ := ih t1 t tr2 tr1 h
          obtain ⟨a1, a2, a3⟩ := AssignField_ret t0 t1 k v tr (by rw [ha])
          refine ⟨?_, hid.trans a1⟩
          rw [List.filterMap_cons]
          by_cases hk : k = "GenDate".toList
          · have : genDateOf line = some t1.GenDate := by
              simp only [genDateOf, hs, hk, if_true]
              exact a2 hk
            rw [this, List.getLast?_cons, hg]
            rfl
          · have : genDateOf line = none := by
              simp only [genDateOf, hs, hk, if_false]
            rw [this, hg, a3 hk]
      · rw [metadataLoop_cons_bad line rest t0 tr hne hlen] at h
        cases h

/-- C6: when `readTestMetadata` returns a record, its `ID` equals its `GenDate`, and
`GenDate` is the 64-bit value of the last `GenDate` line of the file, 0 when the file has
none; `AssignField` never changes `ID`, whatever the key. -/
theorem readTestMetadata_ID (env : Env) (directory text : Str) (tr tr1 : List Event)
    (t : Test) (ho : env.canOpen directory "metadata.csv".toList = true)
    (hr : env.readAll directory "metadata.csv".toList = some text)
    (h : readTestMetadata env directory tr = (Outcome.ret t, tr1)) :
    t.ID = t.GenDate ∧ t.GenDate = lastGenDate (Split text '\n') ∧
    (∀ (t0 t1 : Test) (k v : Str) (tr0 : List Event),
      (AssignField t0 k v tr0).1 = Outcome.ret t1 → t1.ID = t0.ID) := by
  rw [readTestMetadata_of_file env directory text tr ho hr] at h
  simp only [readTestMetadataText] at h
  rw [bind_apply] at h
  rcases hl : metadataLoop (Split text '\n') Test.zero
    (tr ++ [Event.fileOpen directory "metadata.csv".toList]) with ⟨o, tr2⟩
  rw [hl] at h
  cases o with
  | exit c => cases h
  | ret t2 =>
    simp only [pure_apply, Prod.mk.injEq, Outcome.ret.injEq] at h
    obtain ⟨hg, _⟩ := metadataLoop_genDate _ _ _ _ _ hl
    refine ⟨?_, ?_, fun t0 t1 k v tr0 h1 => (AssignField_ret t0 t1 k v tr0 h1).1⟩
    · rw [← h.1]
    · rw [← h.1]
      exact hg

/-- C6 on a metadata file with two `GenDate` lines: the later one gives the
identifier. -/
theorem readTestMetadata_ID_witness :
    ({ Test.zero with ID := 1000, GenDate := 1000 } : Test).ID = 1000 ∧
    (1000 : Int) = lastGenDate (Split "GenDate;5\nGenDate;1000\n".toList '\n') :=
  have h := readTestMetadata_ID
    { canOpen := fun _ _ => true, readAll := fun _ _ => some "GenDate;5\nGenDate;1000\n".toList,
      copied := fun _ _ => [], http := fun _ _ => Reply.transportError }
    "dir".toList "GenDate;5\nGenDate;1000\n".toList [] [Event.fileOpen "dir".toList "metadata.csv".toList]
    { Test.zero with ID := 1000, GenDate := 1000 } rfl rfl (by decide)
  ⟨h.1, h.2.1⟩

/-! ## The solutions loop -/

theorem permutationsLoop_mismatch (k v line : Str) : ∀ (N i : Nat) (lines : List Str)
    (perms : List Permutation) (tr : List Event),
    (∀ j l, j < N → lines[j]? = some l → l ≠ [] → ∃ w, Split l ';' = [decimal (i + j), w]) →
    lines[N]? = some line → Split line ';' = [k, v] → k ≠ decimal (i + N) →
    permutationsLoop i lines perms tr = (Outcome.exit 7, tr) := by
  intro N
  induction N with
  | zero =>
    intro i lines perms tr _ hline hs hk
    cases lines with
    | nil => simp at hline
    | cons l0 rest =>
      simp only [List.getElem?_cons_zero, Option.some.injEq] at hline
      subst hline
      rw [permutationsLoop_cons_kv i l0 k v rest perms tr hs]
      have : ¬ decimal i = k := fun e => hk (by simpa using e.symm)
      simp only [this, if_false]
  | succ N ih =>
    intro i lines perms tr hbefore hline hs hk
    cases lines with
    | nil => simp at hline
    | cons l0 rest =>
      simp only [List.getElem?_cons_succ] at hline
      have hrest : ∀ j l, j < N → rest[j]? = some l → l ≠ [] →
          ∃ w, Split l ';' = [decimal (i + 1 + j), w] := by
        intro j l hj hl hne
        have := hbefore (j + 1) l (by omega) (by simpa using hl) hne
        have e : i + (j + 1) = i + 1 + j := by omega
        rwa [e] at this
      have hk1 : k ≠ decimal (i + 1 + N) := by
        have e : i + (N + 1) = i + 1 + N := by omega
        rwa [e] at hk
      by_cases hne : l0 = []
      · subst hne
        rw [permutationsLoop_cons_empty]
        exact ih (i + 1) rest perms tr hrest hline hs hk1
      · obtain ⟨w, hw⟩ := hbefore 0 l0 (by omega) (by simp) hne
        rw [permutationsLoop_cons_kv i l0 _ w rest perms tr hw]
        simp only [Nat.add_zero, if_true]
        exact ih (i + 1) rest _ tr hrest hline hs hk1

theorem readPermutations_of_file (env : Env) (test : Test) (directory text : Str)
    (tr : List Event) (ho : env.canOpen directory "solutions.csv".toList = true)
    (hr : env.readAll directory "solutions.csv".toList = some text) :
    readPermutations env test directory tr =
      readPermutationsText text (tr ++ [Event.fileOpen directory "solutions.csv".toList]) := by
  simp only [readPermutations, bind, Prog.bind, osOpen, ho, hr]
  rfl

/-- C2: when every non-empty line before line `N` of the solutions file has two parts,
the first the decimal rendering of its own line number, and line `N` is non-empty with
two parts, the first not the decimal rendering of `N`, then `readPermutations` ends the
process with exit code 7 and returns no list. -/
theorem readPermutations_index_mismatch (env : Env) (test : Test) (directory text : Str)
    (tr : List Event) (N : Nat) (line k v : Str)
    (ho : env.canOpen directory "solutions.csv".toList = true)
    (hr : env.readAll directory "solutions.csv".toList = some text)
    (hbefore : ∀ j l, j < N → (Split text '\n')[j]? = some l → l ≠ [] →
      ∃ w, Split l ';' = [decimal j, w])
    (hline : (Split text '\n')[N]? = some line) (hne : line ≠ [])
    (hs : Split line ';' = [k, v]) (hk : k ≠ decimal N) :
    readPermutations env test directory tr =
      (Outcome.exit 7, tr ++ [Event.fileOpen directory "solutions.csv".toList]) := by
  have _ := hne
  rw [readPermutations_of_file env test directory text tr ho hr, readPermutationsText]
  apply permutationsLoop_mismatch k v line N 0 _ _ _ _ hline hs
  · simpa using hk
  · intro j l hj hl hne1
    simpa using hbefore j l hj hl hne1

/-- C2 on the file `0;A`, `5;B`: line 1 declares index 5. -/
theorem readPermutations_index_mismatch_witness :
    readPermutations
      { canOpen := fun _ _ => true, readAll := fun _ _ => some "0;A\n5;B\n".toList,
        copied := fun _ _ => [], http := fun _ _ => Reply.transportError }
      Test.zero "dir".toList [] =
      (Outcome.exit 7, [] ++ [Event.fileOpen "dir".toList "solutions.csv".toList]) :=
  readPermutations_index_mismatch _ Test.zero "dir".toList "0;A\n5;B\n".toList [] 1
    "5;B".toList "5".toList "B".toList rfl rfl
    (by
      intro j l hj hl _
      have hj0 : j = 0 := by omega
      subst hj0
      have e : l = "0;A".toList := by
        have h0 : (Split "0;A\n5;B\n".toList '\n')[0]? = some "0;A".toList := by decide
        rw [h0] at hl
        exact (Option.some.inj hl).symm
      subst e
      exact ⟨"A".toList, by decide⟩)
    (by decide) (by decide) (by decide) (by decide)

theorem numbered_cons_empty (i : Nat) (rest : List Str) :
    ((([] : Str) :: rest).enumFrom i).filter (fun p => decide (p.2 ≠ [])) =
      (rest.enumFrom (i + 1)).filter (fun p => decide (p.2 ≠ [])) := by
  simp [List.enumFrom_cons]

theorem numbered_cons_ne (i : Nat) (line : Str) (rest : List Str) (hne : line ≠ []) :
    ((line :: rest).enumFrom i).filter (fun p => decide (p.2 ≠ [])) =
      (i, line) :: (rest.enumFrom (i + 1)).filter (fun p => decide (p.2 ≠ [])) := by
  simp [List.enumFrom_cons, hne]

theorem permutationsLoop_ret (lines : List Str) : ∀ (i : Nat) (perms out : List Permutation)
    (tr tr1 : List Event),
    permutationsLoop i lines perms tr = (Outcome.ret out, tr1) →
    out = perms ++ ((lines.enumFrom i).filter (fun p => decide (p.2 ≠ []))).map recordOf ∧
    (∀ p ∈ (lines.enumFrom i).filter (fun p => decide (p.2 ≠ [])),
      ∃ v, Split p.2 ';' = [decimal p.1, v]) := by
  induction lines with
  | nil =>
    intro i perms out tr tr1 h
    simp only [permutationsLoop, pure, Prog.pure, Prod.mk.injEq, Outcome.ret.injEq] at h
    simp [h.1]
  | cons line rest ih =>
    intro i perms out tr tr1 h
    by_cases hne : line = []
    · subst hne
      rw [permutationsLoop_cons_empty] at h
      rw [numbered_cons_empty]
      exact ih (i + 1) perms out tr tr1 h
    · by_cases hlen : (Split line ';').length = 2
      · obtain ⟨k, v, hs⟩ := length_two _ hlen
        rw [permutationsLoop_cons_kv i line k v rest perms tr hs] at h
        by_cases hd : decimal i = k
        · rw [if_pos hd] at h
          obtain ⟨h1, h2⟩ := ih (i + 1) _ out tr tr1 h
          rw [numbered_cons_ne i line rest hne]
          constructor
          · rw [h1]
            simp [recordOf, hs]
          · intro p hp
            rcases List.mem_cons.1 hp with rfl | hp
            · exact ⟨v, by rw [hs, hd]⟩
            · exact h2 p hp
        · rw [if_neg hd] at h
          cases h
      · rw [permutationsLoop_cons_bad i line rest perms tr hne hlen] at h
        cases h

theorem numbered_length (lines : List Str) : ∀ i : Nat,
    ((lines.enumFrom i).filter (fun p => decide (p.2 ≠ []))).length =
      (lines.filter (fun l => decide (l ≠ []))).length := by
  induction lines with
  | nil => intro i; rfl
  | cons line rest ih =>
    intro i
    by_cases hne : line = []
    · subst hne
      rw [numbered_cons_empty, ih]
      simp
    · rw [numbered_cons_ne i line rest hne, List.filter_cons_of_pos (by simpa using hne),
        List.length_cons, List.length_cons, ih]

theorem numbered_append (pre post : List Str) (h : ∀ l ∈ pre, l ≠ []) :
    numberedLines (pre ++ post) =
      pre.enum ++ (post.enumFrom pre.length).filter (fun p => decide (p.2 ≠ [])) := by
  unfold numberedLines
  rw [List.enum, List.enumFrom_append, List.filter_append]
  congr 1
  · rw [List.filter_eq_self]
    rintro ⟨i, l⟩ hp
    have hl : l ∈ pre := by
      have := List.mem_map_of_mem Prod.snd hp
      rwa [List.enumFrom_map_snd] at this
    simpa using h l hl
  · simp

/-- C10 (as amended): when `readPermutations` returns, the list has one record per
non-empty line of the file, in file order; the record of a line has as `Index` the
zero-based number of that line in the file, empty lines counted, which the line also
declares in its first part, and as `Solutions` the second part of the line.  While no
empty line has occurred, the index of a record is its position in the list. -/
theorem readPermutations_records (env : Env) (test : Test) (directory text : Str)
    (tr tr1 : List Event) (perms : List Permutation)
    (ho : env.canOpen directory "solutions.csv".toList = true)
    (hr : env.readAll directory "solutions.csv".toList = some text)
    (h : readPermutations env test directory tr = (Outcome.ret perms, tr1)) :
    perms = (numberedLines (Split text '\n')).map recordOf ∧
    perms.length = ((Split text '\n').filter (fun l => decide (l ≠ []))).length ∧
    (∀ p ∈ numberedLines (Split text '\n'), ∃ v, Split p.2 ';' = [decimal p.1, v]) ∧
    (∀ (pre post : List Str) (k : Nat) (l : Str), Split text '\n' = pre ++ post →
      (∀ l ∈ pre, l ≠ []) → pre[k]? = some l →
      perms[k]? = some { Index := (k : Int), Solutions := (Split l ';').getD 1 [] }) := by
  rw [readPermutations_of_file env test directory text tr ho hr, readPermutationsText] at h
  obtain ⟨h1, h2⟩ := permutationsLoop_ret _ _ _ _ _ _ h
  have hp : perms = (numberedLines (Split text '\n')).map recordOf := by
    simpa [numberedLines, List.enum] using h1
  refine ⟨hp, ?_, h2, ?_⟩
  · rw [hp, List.length_map]
    exact numbered_length _ 0
  · intro pre post k l hsplit hpre hk
    rw [hp, hsplit, numbered_append pre post hpre, List.map_append]
    have hlt : k < pre.length := by
      by_contra hge
      rw [List.getElem?_eq_none (by omega)] at hk
      cases hk
    rw [List.getElem?_append_left (by simpa using hlt), List.getElem?_map, List.getElem?_enum, hk]
    rfl

/-- C10 (amended) on the file `0;A`, `1;B`, which has no empty line before its end. -/
theorem readPermutations_records_witness :
    [({ Index := 0, Solutions := "A".toList } : Permutation),
      { Index := 1, Solutions := "B".toList }] =
      (numberedLines (Split "0;A\n1;B\n".toList '\n')).map recordOf :=
  (readPermutations_records
    { canOpen := fun _ _ => true, readAll := fun _ _ => some "0;A\n1;B\n".toList,
      copied := fun _ _ => [], http := fun _ _ => Reply.transportError }
    Test.zero "dir".toList "0;A\n1;B\n".toList [] [Event.fileOpen "dir".toList "solutions.csv".toList]
    [{ Index := 0, Solutions := "A".toList }, { Index := 1, Solutions := "B".toList }]
    rfl rfl (by decide)).1

/-- C10 (as stated) fails: on the solutions text `0;A`, empty line, `2;B` the function
returns two records and the record at position 1 has `Index` 2, not 1. -/
theorem readPermutations_position_counterexample :
    readPermutationsText "0;A\n\n2;B".toList [] =
      (Outcome.ret [{ Index := 0, Solutions := "A".toList }, { Index := 2, Solutions := "B".toList }],
        []) ∧
    ([({ Index := 0, Solutions := "A".toList } : Permutation),
      { Index := 2, Solutions := "B".toList }][1]?).map Permutation.Index ≠ some 1 := by
  decide

/-! ## File names of a permutation -/

theorem decimal_two (n : Nat) (h1 : 10 ≤ n) (h2 : n < 100) :
    decimal n = [Nat.digitChar (n / 10), Nat.digitChar (n % 10)] := by
  rw [decimal_ge_ten n h1, decimal_lt_ten (n / 10) (by omega)]
  rfl

theorem decimal_three (n : Nat) (h1 : 100 ≤ n) (h2 : n < 1000) :
    decimal n = [Nat.digitChar (n / 100), Nat.digitChar (n / 10 % 10), Nat.digitChar (n % 10)] := by
  rw [decimal_ge_ten n (by omega), decimal_two (n / 10) (by omega) (by omega)]
  have : n / 10 / 10 = n / 100 := by omega
  rw [this]
  rfl

theorem decimal_four (n : Nat) (h1 : 1000 ≤ n) (h2 : n < 10000) :
    decimal n = [Nat.digitChar (n / 1000), Nat.digitChar (n / 100 % 10),
      Nat.digitChar (n / 10 % 10), Nat.digitChar (n % 10)] := by
  rw [decimal_ge_ten n (by omega), decimal_three (n / 10) (by omega) (by omega)]
  have e1 : n / 10 / 100 = n / 1000 := by omega
  have e2 : n / 10 / 10 % 10 = n / 100 % 10 := by omega
  rw [e1, e2]
  rfl

theorem decimal_length_ge (n : Nat) (h : 10000 ≤ n) : 5 ≤ (decimal n).length := by
  obtain ⟨c, cs, hc, _, _⟩ := decimal_head (n / 10 / 10 / 10 / 10)
  rw [decimal_ge_ten n (by omega), decimal_ge_ten (n / 10) (by omega),
    decimal_ge_ten (n / 10 / 10) (by omega), decimal_ge_ten (n / 10 / 10 / 10) (by omega), hc]
  simp

theorem sprint04D_small (i : Nat) (h : i < 10000) : sprint04D (i : Int) = fourDigits i := by
  have hneg : ¬ ((i : Int) < 0) := by omega
  simp only [sprint04D, hneg, if_false, Int.natAbs_ofNat, fourDigits]
  by_cases h1 : i < 10
  · rw [decimal_lt_ten i h1]
    have e1 : i / 1000 = 0 := by omega
    have e2 : i / 100 % 10 = 0 := by omega
    have e3 : i / 10 % 10 = 0 := by omega
    have e4 : i % 10 = i := by omega
    rw [e1, e2, e3, e4]
    rfl
  · by_cases h2 : i < 100
    · rw [decimal_two i (by omega) h2]
      have e1 : i / 1000 = 0 := by omega
      have e2 : i / 100 % 10 = 0 := by omega
      have e3 : i / 10 % 10 = i / 10 := by omega
      rw [e1, e2, e3]
      rfl
    · by_cases h3 : i < 1000
      · rw [decimal_three i (by omega) h3]
        have e1 : i / 1000 = 0 := by omega
        have e2 : i / 100 % 10 = i / 100 := by omega
        rw [e1, e2]
        rfl
      · rw [decimal_four i (by omega) h]
        rfl

theorem sprint04D_large (i : Nat) (h : 10000 ≤ i) : sprint04D (i : Int) = decimal i := by
  have hneg : ¬ ((i : Int) < 0) := by omega
  have hl := decimal_length_ge i h
  have e : 4 - (decimal i).length = 0 := by omega
  simp only [sprint04D, hneg, if_false, Int.natAbs_ofNat, e, List.replicate_zero, List.nil_append]

theorem fourDigits_digits (i : Nat) (h : i < 10000) :
    ∀ c ∈ fourDigits i, '0' ≤ c ∧ c ≤ '9' := by
  intro c hc
  simp only [fourDigits, List.mem_cons, List.mem_singleton, List.not_mem_nil, or_false] at hc
  rcases hc with rfl | rfl | rfl | rfl
  · exact ⟨(digitChar_digit _ (by omega)).1, (digitChar_digit _ (by omega)).2.1⟩
  · exact ⟨(digitChar_digit _ (by omega)).1, (digitChar_digit _ (by omega)).2.1⟩
  · exact ⟨(digitChar_digit _ (by omega)).1, (digitChar_digit _ (by omega)).2.1⟩
  · exact ⟨(digitChar_digit _ (by omega)).1, (digitChar_digit _ (by omega)).2.1⟩

theorem createPdfFormFile_ok (env : Env) (key name directory : Str) (writer : List Part)
    (tr : List Event) (ho : env.canOpen directory name = true) :
    createPdfFormFile env key name directory writer tr =
      (Outcome.ret (writer ++ [Part.mk key name (Payload.bytes (env.copied directory name))]),
        tr ++ [Event.fileOpen directory name]) := by
  simp only [createPdfFormFile, bind, Prog.bind, osOpen, ho, CreateFormFile]
  rfl

theorem createPdfFormFile_fail (env : Env) (key name directory : Str) (writer : List Part)
    (tr : List Event) (ho : env.canOpen directory name = false) :
    createPdfFormFile env key name directory writer tr =
      (Outcome.exit 2, tr ++ [Event.fileOpen directory name]) := by
  simp only [createPdfFormFile, bind, Prog.bind, osOpen, ho]
  rfl

theorem PushPermutation_ok (env : Env) (directory : Str) (test : Test) (perm : Permutation)
    (tr : List Event)
    (h0 : env.canOpen directory ((permutationPdfNames perm).getD 0 []) = true)
    (h1 : env.canOpen directory ((permutationPdfNames perm).getD 1 []) = true) :
    PushPermutation env directory test perm tr =
      postForm env (permutationUrl test) (permutationBody env directory perm)
        (tr ++ [Event.fileOpen directory ((permutationPdfNames perm).getD 0 []),
                Event.fileOpen directory ((permutationPdfNames perm).getD 1 [])]) := by
  simp only [PushPermutation, createBothPdfFormFiles, bind_apply,
    createPdfFormFile_ok env _ _ directory _ _ h0, createPdfFormFile_ok env _ _ directory _ _ h1,
    CreateFormFile, gobEncode, Bool.not_true, Bool.false_eq_true, if_false, permutationBody,
    List.nil_append, List.append_assoc, List.cons_append]

theorem permutationPdfNames_eq (perm : Permutation) :
    permutationPdfNames perm =
      [sprint04D perm.Index ++ "n.pdf".toList, sprint04D perm.Index ++ "s.pdf".toList] := by
  simp [permutationPdfNames]

/-- C9 (as amended): for an index below 10000 the two file names `PushPermutation` uploads
are the four-digit zero-padded rendering of the index followed by `n.pdf` and `s.pdf`: nine
characters, the first four digits, and these are the names of the form files `pdf1` and
`pdf2` of the request.  From 10000 on the index is rendered with all its digits, five or
more, so the names are longer. -/
theorem permutationPdfNames_four_digits (i : Nat) (solutions : Str) :
    (i < 10000 →
      permutationPdfNames { Index := (i : Int), Solutions := solutions } =
        [fourDigits i ++ "n.pdf".toList, fourDigits i ++ "s.pdf".toList] ∧
      (∀ name ∈ permutationPdfNames { Index := (i : Int), Solutions := solutions },
        name.length = 9 ∧ ∀ c ∈ name.take 4, '0' ≤ c ∧ c ≤ '9') ∧
      (∀ (env : Env) (directory : Str) (test : Test) (tr : List Event),
        env.canOpen directory (fourDigits i ++ "n.pdf".toList) = true →
        env.canOpen directory (fourDigits i ++ "s.pdf".toList) = true →
        PushPermutation env directory test { Index := (i : Int), Solutions := solutions } tr =
          postForm env (permutationUrl test)
            [{ fieldName := "pdf1".toList, fileName := fourDigits i ++ "n.pdf".toList,
               payload := Payload.bytes (env.copied directory (fourDigits i ++ "n.pdf".toList)) },
             { fieldName := "pdf2".toList, fileName := fourDigits i ++ "s.pdf".toList,
               payload := Payload.bytes (env.copied directory (fourDigits i ++ "s.pdf".toList)) },
             { fieldName := "permutation".toList, fileName := "permutation.gob".toList,
               payload := Payload.gobPermutation { Index := (i : Int), Solutions := solutions } }]
            (tr ++ [Event.fileOpen directory (fourDigits i ++ "n.pdf".toList),
                    Event.fileOpen directory (fourDigits i ++ "s.pdf".toList)]))) ∧
    (10000 ≤ i →
      permutationPdfNames { Index := (i : Int), Solutions := solutions } =
        [decimal i ++ "n.pdf".toList, decimal i ++ "s.pdf".toList] ∧
      ∀ name ∈ permutationPdfNames { Index := (i : Int), Solutions := solutions },
        10 ≤ name.length) := by
  constructor
  · intro h
    have hn : permutationPdfNames { Index := (i : Int), Solutions := solutions } =
        [fourDigits i ++ "n.pdf".toList, fourDigits i ++ "s.pdf".toList] := by
      rw [permutationPdfNames_eq, sprint04D_small i h]
    refine ⟨hn, ?_, ?_⟩
    · intro name hname
      rw [hn] at hname
      have ht : ∀ suffix : Str, (fourDigits i ++ suffix).take 4 = fourDigits i := by
        intro suffix
        simp [fourDigits]
      simp only [List.mem_cons, List.mem_singleton, List.not_mem_nil, or_false] at hname
      rcases hname with rfl | rfl
      · exact ⟨by simp [fourDigits], by rw [ht]; exact fourDigits_digits i h⟩
      · exact ⟨by simp [fourDigits], by rw [ht]; exact fourDigits_digits i h⟩
    · intro env directory test tr h0 h1
      have e0 : (permutationPdfNames { Index := (i : Int), Solutions := solutions }).getD 0 [] =
          fourDigits i ++ "n.pdf".toList := by rw [hn]; rfl
      have e1 : (permutationPdfNames { Index := (i : Int), Solutions := solutions }).getD 1 [] =
          fourDigits i ++ "s.pdf".toList := by rw [hn]; rfl
      rw [PushPermutation_ok env directory test _ tr (by rw [e0]; exact h0) (by rw [e1]; exact h1)]
      simp only [permutationBody, e0, e1]
  · intro h
    have hn : permutationPdfNames { Index := (i : Int), Solutions := solutions } =
        [decimal i ++ "n.pdf".toList, decimal i ++ "s.pdf".toList] := by
      rw [permutationPdfNames_eq, sprint04D_large i h]
    refine ⟨hn, ?_⟩
    intro name hname
    rw [hn] at hname
    have hl := decimal_length_ge i h
    simp only [List.mem_cons, List.mem_singleton, List.not_mem_nil, or_false] at hname
    rcases hname with rfl | rfl
    · simp only [List.length_append]
      have : ("n.pdf".toList).length = 5 := rfl
      omega
    · simp only [List.length_append]
      have : ("s.pdf".toList).length = 5 := rfl
      omega

/-- C9 (amended) at index 7: the names are `0007n.pdf` and `0007s.pdf`. -/
theorem permutationPdfNames_four_digits_witness :
    permutationPdfNames { Index := 7, Solutions := "ABAC".toList } =
      ["0007n.pdf".toList, "0007s.pdf".toList] :=
  ((permutationPdfNames_four_digits 7 "ABAC".toList).1 (by decide)).1.trans (by decide)

theorem decimal_digits (n : Nat) : ∀ c ∈ decimal n, '0' ≤ c ∧ c ≤ '9' := by
  induction n using Nat.strong_induction_on with
  | _ n ih =>
    intro c hc
    by_cases h : n < 10
    · rw [decimal_lt_ten n h, List.mem_singleton] at hc
      subst hc
      exact ⟨(digitChar_digit n h).1, (digitChar_digit n h).2.1⟩
    · rw [decimal_ge_ten n (by omega), List.mem_append, List.mem_singleton] at hc
      rcases hc with hc | rfl
      · exact ih (n / 10) (by omega) c hc
      · exact ⟨(digitChar_digit _ (by omega)).1, (digitChar_digit _ (by omega)).2.1⟩

theorem solutionsLines_split : ∀ (n i : Nat),
    Split (solutionsLines i n) '\n' =
      (List.range' i n).map (fun j : Nat => decimal j ++ ";A".toList) ++ [[]] := by
  intro n
  induction n with
  | zero => intro i; rfl
  | succ n ih =>
    intro i
    have hnl : '\n' ∉ decimal i ++ ";A".toList := by
      simp only [List.mem_append, not_or]
      exact ⟨fun hc => absurd (decimal_digits i _ hc).1 (by decide), by decide⟩
    have e : solutionsLines i (n + 1) =
        (decimal i ++ ";A".toList) ++ '\n' :: solutionsLines (i + 1) n := by
      simp [solutionsLines]
    rw [e, Split_append_sep _ _ '\n' hnl, ih (i + 1), List.range'_succ]
    rfl

theorem permutationsLoop_solutionsLines : ∀ (n i : Nat) (perms : List Permutation)
    (tr : List Event),
    permutationsLoop i ((List.range' i n).map (fun j : Nat => decimal j ++ ";A".toList) ++ [[]])
        perms tr =
      (Outcome.ret (perms ++ (List.range' i n).map (fun j : Nat =>
        ({ Index := (j : Int), Solutions := "A".toList } : Permutation))), tr) := by
  intro n
  induction n with
  | zero =>
    intro i perms tr
    simp [permutationsLoop, pure, Prog.pure]
  | succ n ih =>
    intro i perms tr
    have hsc : ';' ∉ decimal i := fun hc => absurd (decimal_digits i _ hc).2 (by decide)
    have hs : Split (decimal i ++ ";A".toList) ';' = [decimal i, "A".toList] :=
      Split_key_value (decimal i) "A".toList ';' hsc (by decide)
    rw [List.range'_succ, List.map_cons, List.cons_append,
      permutationsLoop_cons_kv i _ (decimal i) "A".toList _ perms tr hs, if_pos rfl, ih (i + 1)]
    simp

/-- C9 (as stated) fails: on the solutions file with the 10001 well-formed lines `0;A` to
`10000;A`, `readPermutations` returns one record per line, the last of them with index
10000, and the two names `PushPermutation` builds for that record, `10000n.pdf` and
`10000s.pdf`, have ten characters, not nine. -/
theorem permutationPdfNames_length_counterexample :
    readPermutationsText (solutionsLines 0 10001) [] =
      (Outcome.ret ((List.range' 0 10001).map (fun j : Nat =>
        ({ Index := (j : Int), Solutions := "A".toList } : Permutation))), []) ∧
    ({ Index := 10000, Solutions := "A".toList } : Permutation) ∈
      (List.range' 0 10001).map (fun j : Nat =>
        ({ Index := (j : Int), Solutions := "A".toList } : Permutation)) ∧
    permutationPdfNames { Index := 10000, Solutions := "A".toList } =
      ["10000n.pdf".toList, "10000s.pdf".toList] ∧
    ("10000n.pdf".toList).length = 10 ∧ ("10000s.pdf".toList).length = 10 := by
  refine ⟨?_, ?_, by decide, by decide, by decide⟩
  · rw [readPermutationsText, solutionsLines_split]
    exact permutationsLoop_solutionsLines 10001 0 [] []
  · rw [List.mem_map]
    refine ⟨10000, ?_, rfl⟩
    rw [List.mem_range'_1]
    omega

/-! ## The run of `main` -/

theorem requestsOf_append (a b : List Event) :
    requestsOf (a ++ b) = requestsOf a ++ requestsOf b := by
  induction a with
  | nil => rfl
  | cons e es ih =>
    cases e <;> simp [requestsOf, ih]

theorem mem_requestsOf (tr : List Event) (r : Request) :
    Event.httpRequest r ∈ tr ↔ r ∈ requestsOf tr := by
  induction tr with
  | nil => simp [requestsOf]
  | cons e es ih =>
    cases e <;> simp [requestsOf, ih]

theorem checkTestMetadata_apply (env : Env) (directory : Str) (tr : List Event) :
    checkTestMetadata env directory tr =
      (if env.canOpen directory "metadata.csv".toList then Outcome.ret () else Outcome.exit 2,
        tr ++ [Event.fileOpen directory "metadata.csv".toList]) := by
  cases h : env.canOpen directory "metadata.csv".toList <;>
    simp only [checkTestMetadata, bind, Prog.bind, osOpen, h] <;> rfl

theorem checkPdfsLoop_cons (env : Env) (directory name : Str) (rest : List Str)
    (tr : List Event) :
    checkPdfsLoop env directory (name :: rest) tr =
      if env.canOpen directory name then
        checkPdfsLoop env directory rest (tr ++ [Event.fileOpen directory name])
      else (Outcome.exit 2, tr ++ [Event.fileOpen directory name]) := by
  cases h : env.canOpen directory name <;>
    simp only [checkPdfsLoop, bind, Prog.bind, osOpen, h] <;> rfl

theorem checkTestBothPdfs_apply (env : Env) (directory : Str) (tr : List Event) :
    checkTestBothPdfs env directory tr =
      if env.canOpen directory "alln.pdf".toList then
        (if env.canOpen directory "alls.pdf".toList then Outcome.ret () else Outcome.exit 2,
          tr ++ [Event.fileOpen directory "alln.pdf".toList,
                 Event.fileOpen directory "alls.pdf".toList])
      else (Outcome.exit 2, tr ++ [Event.fileOpen directory "alln.pdf".toList]) := by
  rw [checkTestBothPdfs, pdfFilenames, checkPdfsLoop_cons, checkPdfsLoop_cons]
  cases h1 : env.canOpen directory "alln.pdf".toList <;>
    cases h2 : env.canOpen directory "alls.pdf".toList <;>
    simp only [if_true, if_false, Bool.false_eq_true, List.append_assoc, List.singleton_append,
      checkPdfsLoop, pure, Prog.pure]

theorem main_one_arg (env : Env) (directory : Str) :
    main env [directory] =
      (do
        checkTestMetadata env directory
        checkTestBothPdfs env directory
        let test ← readTestMetadata env directory
        PushTest env directory test
        let permutations ← readPermutations env test directory
        pushLoop env directory test permutations) := by
  simp [main]

/-- C4: when `main` is called with one directory argument and `alln.pdf` or `alls.pdf`
cannot be opened there, the process ends with exit code 2 and no HTTP request is among
the effects performed: the run stops in `checkTestMetadata` or `checkTestBothPdfs`,
before `PushTest` and every `PushPermutation`. -/
theorem main_missing_pdf (env : Env) (directory : Str)
    (h : env.canOpen directory "alln.pdf".toList = false ∨
      env.canOpen directory "alls.pdf".toList = false) :
    (main env [directory] []).1 = Outcome.exit 2 ∧
    requestsOf (main env [directory] []).2 = [] ∧
    (∀ r : Request, Event.httpRequest r ∉ (main env [directory] []).2) := by
  have key : (main env [directory] []).1 = Outcome.exit 2 ∧
      requestsOf (main env [directory] []).2 = [] := by
    rw [main_one_arg]
    simp only [bind_apply, checkTestMetadata_apply, checkTestBothPdfs_apply]
    cases hm : env.canOpen directory "metadata.csv".toList
    · simp [requestsOf]
    · cases h1 : env.canOpen directory "alln.pdf".toList
      · simp [requestsOf]
      · cases h2 : env.canOpen directory "alls.pdf".toList
        · simp [requestsOf]
        · rw [h1, h2] at h
          simp at h
  refine ⟨key.1, key.2, ?_⟩
  intro r hr
  rw [mem_requestsOf, key.2] at hr
  cases hr

/-- C4 in a directory where only `alls.pdf` is missing. -/
theorem main_missing_pdf_witness :
    (main
      { canOpen := fun _ name => decide (name ≠ "alls.pdf".toList),
        readAll := fun _ _ => some "GenDate;1000\n".toList,
        copied := fun _ _ => [], http := fun _ _ => Reply.response 200 Location.absent (some "key".toList) }
      ["dir".toList] []).1 = Outcome.exit 2 :=
  (main_missing_pdf _ "dir".toList (Or.inr (by decide))).1

theorem AssignField_frame (t : Test) (k v : Str) (tr : List Event) :
    AssignField t k v tr = ((AssignField t k v []).1, tr ++ (AssignField t k v []).2) ∧
    requestsOf (AssignField t k v []).2 = [] := by
  unfold AssignField
  split_ifs
  · simp [pure, Prog.pure, requestsOf]
  · simp [pure, Prog.pure, requestsOf]
  · simp [pure, Prog.pure, requestsOf]
  · simp only []
    cases ParseInt (v.take (v.length - "m".toList.length)) 16 <;>
      simp [pure, Prog.pure, die, requestsOf]
  · simp [die, requestsOf]
  · cases ParseInt v 64 <;> simp [pure, Prog.pure, die, requestsOf]
  · cases Atoi v <;> simp [pure, Prog.pure, die, requestsOf]
  · simp [bind, Prog.bind, warn, emit, pure, Prog.pure, requestsOf]

theorem metadataLoop_frame (lines : List Str) : ∀ (t : Test) (tr : List Event),
    metadataLoop lines t tr = ((metadataLoop lines t []).1, tr ++ (metadataLoop lines t []).2) ∧
    requestsOf (metadataLoop lines t []).2 = [] := by
  induction lines with
  | nil => intro t tr; simp [metadataLoop, pure, Prog.pure, requestsOf]
  | cons line rest ih =>
    intro t tr
    by_cases hne : line = []
    · subst hne
      rw [metadataLoop_cons_empty]
      exact ih t tr
    · by_cases hlen : (Split line ';').length = 2
      · obtain ⟨k, v, hs⟩ := length_two _ hlen
        rw [metadataLoop_cons_kv line k v rest t tr hs, metadataLoop_cons_kv line k v rest t [] hs,
          bind_apply, bind_apply]
        obtain ⟨a1, a2⟩ := AssignField_frame t k v tr
        rw [a1]
        rcases ha : AssignField t k v [] with ⟨o, tr0⟩
        rw [ha] at a2
        cases o with
        | exit c => exact ⟨rfl, a2⟩
        | ret t1 =>
          simp only
          obtain ⟨b1, b2⟩ := ih t1 (tr ++ tr0)
          obtain ⟨c1, _⟩ := ih t1 tr0
          rw [b1, c1]
          simp only [List.append_assoc, requestsOf_append, a2, b2, List.append_nil, and_self]
      · rw [metadataLoop_cons_bad line rest t tr hne hlen,
          metadataLoop_cons_bad line rest t [] hne hlen]
        simp [requestsOf]

theorem readTestMetadataText_frame (text : Str) (tr : List Event) :
    readTestMetadataText text tr =
      ((readTestMetadataText text []).1, tr ++ (readTestMetadataText text []).2) ∧
    requestsOf (readTestMetadataText text []).2 = [] := by
  simp only [readTestMetadataText, bind_apply]
  obtain ⟨a1, a2⟩ := metadataLoop_frame (Split text '\n') Test.zero tr
  rw [a1]
  rcases ha : metadataLoop (Split text '\n') Test.zero [] with ⟨o, tr0⟩
  rw [ha] at a2
  cases o with
  | exit c => exact ⟨rfl, a2⟩
  | ret t => exact ⟨rfl, a2⟩

theorem permutationsLoop_frame (lines : List Str) : ∀ (i : Nat) (perms : List Permutation)
    (tr : List Event),
    permutationsLoop i lines perms tr = ((permutationsLoop i lines perms []).1, tr) := by
  induction lines with
  | nil => intro i perms tr; rfl
  | cons line rest ih =>
    intro i perms tr
    by_cases hne : line = []
    · subst hne
      rw [permutationsLoop_cons_empty]
      exact ih (i + 1) perms tr
    · by_cases hlen : (Split line ';').length = 2
      · obtain ⟨k, v, hs⟩ := length_two _ hlen
        rw [permutationsLoop_cons_kv i line k v rest perms tr hs,
          permutationsLoop_cons_kv i line k v rest perms [] hs]
        by_cases hd : decimal i = k
        · rw [if_pos hd, if_pos hd]
          exact ih (i + 1) _ tr
        · rw [if_neg hd, if_neg hd]
      · rw [permutationsLoop_cons_bad i line rest perms tr hne hlen,
          permutationsLoop_cons_bad i line rest perms [] hne hlen]

theorem redirectBehavior_some (m : Str) (status : Int) (r : Str × Bool)
    (h : redirectBehavior m status = some r) :
    status = 301 ∨ status = 302 ∨ status = 303 ∨ status = 307 ∨ status = 308 := by
  unfold redirectBehavior at h
  split_ifs at h <;> omega

theorem clientDo_final (env : Env) (req : Request) (tr : List Event)
    (h : (env.http tr req).redirects = false) :
    clientDo env req tr = (Outcome.ret (env.http tr req), tr ++ [Event.httpRequest req]) := by
  unfold clientDo
  simp only [clientLoop]
  cases hr : env.http tr req with
  | transportError => rfl
  | response status location respBody =>
    simp only
    cases hb : redirectBehavior req.method status with
    | none => rfl
    | some r =>
      obtain ⟨m, b⟩ := r
      have hs := redirectBehavior_some _ _ _ hb
      rw [hr] at h
      simp only [Reply.redirects, hs, decide_True, Bool.true_and, decide_eq_false_iff_not,
        ne_eq, not_not] at h
      subst h
      rfl

theorem postForm_ok (env : Env) (url : Str) (body : List Part) (tr : List Event)
    (h : (env.http tr { method := "POST".toList, url := url, body := body }).completes = true)
    (hf : (env.http tr { method := "POST".toList, url := url, body := body }).redirects = false) :
    (postForm env url body tr).1 = Outcome.ret () ∧
    requestsOf (postForm env url body tr).2 =
      requestsOf tr ++ [{ method := "POST".toList, url := url, body := body }] := by
  simp only [postForm, NewRequest, bind_apply, clientDo_final env _ tr hf]
  rcases hr : env.http tr { method := "POST".toList, url := url, body := body } with
    _ | ⟨status, loc, b⟩
  · rw [hr] at h; cases h
  · by_cases h200 : status = 200
    · cases b with
      | none =>
        rw [hr] at h
        simp [Reply.completes, h200] at h
      | some key =>
        simp [h200, emit, requestsOf_append, requestsOf]
    · simp [h200, emit, requestsOf_append, requestsOf]

theorem PushTest_ok (env : Env) (directory : Str) (test : Test) (tr : List Event)
    (h0 : env.canOpen directory "alln.pdf".toList = true)
    (h1 : env.canOpen directory "alls.pdf".toList = true) :
    PushTest env directory test tr =
      postForm env testUrl (testBody env directory test)
        (tr ++ [Event.fileOpen directory "alln.pdf".toList,
                Event.fileOpen directory "alls.pdf".toList]) := by
  have e0 : (["alln.pdf".toList, "alls.pdf".toList] : List Str).getD 0 [] = "alln.pdf".toList := rfl
  have e1 : (["alln.pdf".toList, "alls.pdf".toList] : List Str).getD 1 [] = "alls.pdf".toList := rfl
  simp only [PushTest, writeToFormFile, createBothPdfFormFiles, bind_apply, e0, e1,
    CreateFormFile, gobEncode, Bool.not_true, Bool.false_eq_true, if_false, pure_apply,
    createPdfFormFile_ok env _ _ directory _ _ h0, createPdfFormFile_ok env _ _ directory _ _ h1,
    testBody, List.nil_append, List.append_assoc, List.cons_append]

theorem pushLoop_ok (env : Env) (directory : Str) (test : Test)
    (hhttp : ∀ tr req, (env.http tr req).completes = true ∧ (env.http tr req).redirects = false) :
    ∀ (perms : List Permutation) (tr : List Event),
    (∀ p ∈ perms, ∀ name ∈ permutationPdfNames p, env.canOpen directory name = true) →
    (pushLoop env directory test perms tr).1 = Outcome.ret () ∧
    requestsOf (pushLoop env directory test perms tr).2 =
      requestsOf tr ++ perms.map (fun p =>
        { method := "POST".toList, url := permutationUrl test,
          body := permutationBody env directory p }) := by
  intro perms
  induction perms with
  | nil => intro tr _; simp [pushLoop, pure, Prog.pure]
  | cons p ps ih =>
    intro tr hpdf
    have h0 : env.canOpen directory ((permutationPdfNames p).getD 0 []) = true :=
      hpdf p (List.mem_cons_self _ _) _ (by rw [permutationPdfNames_eq]; simp)
    have h1 : env.canOpen directory ((permutationPdfNames p).getD 1 []) = true :=
      hpdf p (List.mem_cons_self _ _) _ (by rw [permutationPdfNames_eq]; simp)
    simp only [pushLoop, bind_apply]
    rw [PushPermutation_ok env directory test p tr h0 h1]
    obtain ⟨a1, a2⟩ := postForm_ok env (permutationUrl test) (permutationBody env directory p)
      (tr ++ [Event.fileOpen directory ((permutationPdfNames p).getD 0 []),
              Event.fileOpen directory ((permutationPdfNames p).getD 1 [])])
      (hhttp _ _).1 (hhttp _ _).2
    rcases hp : postForm env (permutationUrl test) (permutationBody env directory p)
      (tr ++ [Event.fileOpen directory ((permutationPdfNames p).getD 0 []),
              Event.fileOpen directory ((permutationPdfNames p).getD 1 [])]) with ⟨o, tr1⟩
    rw [hp] at a1 a2
    simp only at a1 a2
    subst a1
    simp only
    obtain ⟨b1, b2⟩ := ih tr1 (fun q hq => hpdf q (List.mem_cons_of_mem _ hq))
    refine ⟨b1, ?_⟩
    rw [b2, a2]
    simp [requestsOf_append, requestsOf]

theorem main_to_test_upload (env : Env) (directory mtext : Str) (test : Test)
    (ho1 : env.canOpen directory "metadata.csv".toList = true)
    (ho2 : env.canOpen directory "alln.pdf".toList = true)
    (ho3 : env.canOpen directory "alls.pdf".toList = true)
    (hm : env.readAll directory "metadata.csv".toList = some mtext)
    (hmeta : (readTestMetadataText mtext []).1 = Outcome.ret test) :
    ∃ tr1, requestsOf tr1 = [] ∧
      main env [directory] [] =
        (postForm env testUrl (testBody env directory test) >>= fun _ =>
          readPermutations env test directory >>= fun permutations =>
            pushLoop env directory test permutations) tr1 := by
  refine ⟨[] ++ [Event.fileOpen directory "metadata.csv".toList] ++
      [Event.fileOpen directory "alln.pdf".toList, Event.fileOpen directory "alls.pdf".toList] ++
      [Event.fileOpen directory "metadata.csv".toList] ++ (readTestMetadataText mtext []).2 ++
      [Event.fileOpen directory "alln.pdf".toList, Event.fileOpen directory "alls.pdf".toList],
    ?_, ?_⟩
  · obtain ⟨_, m2⟩ := readTestMetadataText_frame mtext []
    simp [requestsOf_append, requestsOf, m2]
  · rw [main_one_arg]
    simp only [bind_apply, checkTestMetadata_apply, checkTestBothPdfs_apply, ho1, ho2, ho3,
      if_true]
    rw [readTestMetadata_of_file env directory mtext _ ho1 hm]
    obtain ⟨m1, _⟩ := readTestMetadataText_frame mtext
      ([] ++ [Event.fileOpen directory "metadata.csv".toList] ++
        [Event.fileOpen directory "alln.pdf".toList, Event.fileOpen directory "alls.pdf".toList] ++
        [Event.fileOpen directory "metadata.csv".toList])
    rw [m1, hmeta]
    simp only
    rw [PushTest_ok env directory test _ ho2 ho3]

/-- C8 (as amended): in a run of `main` where every file the run needs opens, both files
parse, every request completes without a transport error (the body of a status-200
response included) and no response is a redirect with a `Location` header, whatever the
status codes the server answers otherwise, the process returns normally and the HTTP
requests issued are, in order, one `POST` of the test to `http://<host>/test` and then one
`POST` to `http://<host>/test/<ID>/permutation` for each permutation `readPermutations`
returned, in file order. -/
theorem main_request_sequence (env : Env) (directory mtext stext : Str) (test : Test)
    (perms : List Permutation)
    (hopen : ∀ name ∈ ["metadata.csv".toList, "alln.pdf".toList, "alls.pdf".toList,
      "solutions.csv".toList], env.canOpen directory name = true)
    (hpdf : ∀ p ∈ perms, ∀ name ∈ permutationPdfNames p, env.canOpen directory name = true)
    (hm : env.readAll directory "metadata.csv".toList = some mtext)
    (hs : env.readAll directory "solutions.csv".toList = some stext)
    (hmeta : (readTestMetadataText mtext []).1 = Outcome.ret test)
    (hperm : (readPermutationsText stext []).1 = Outcome.ret perms)
    (hhttp : ∀ tr req, (env.http tr req).completes = true ∧ (env.http tr req).redirects = false) :
    (main env [directory] []).1 = Outcome.ret () ∧
    requestsOf (main env [directory] []).2 =
      { method := "POST".toList, url := testUrl, body := testBody env directory test } ::
        perms.map (fun p =>
          { method := "POST".toList, url := permutationUrl test,
            body := permutationBody env directory p }) := by
  have ho1 : env.canOpen directory "metadata.csv".toList = true :=
    hopen _ (List.mem_cons_self _ _)
  have ho2 : env.canOpen directory "alln.pdf".toList = true :=
    hopen _ (List.mem_cons_of_mem _ (List.mem_cons_self _ _))
  have ho3 : env.canOpen directory "alls.pdf".toList = true :=
    hopen _ (List.mem_cons_of_mem _ (List.mem_cons_of_mem _ (List.mem_cons_self _ _)))
  have ho4 : env.canOpen directory "solutions.csv".toList = true :=
    hopen _ (List.mem_cons_of_mem _ (List.mem_cons_of_mem _ (List.mem_cons_of_mem _
      (List.mem_cons_self _ _))))
  obtain ⟨tr1, hreq1, hmain⟩ := main_to_test_upload env directory mtext test ho1 ho2 ho3 hm hmeta
  rw [hmain]
  simp only [bind_apply]
  obtain ⟨p1, p2⟩ := postForm_ok env testUrl (testBody env directory test) tr1
    (hhttp _ _).1 (hhttp _ _).2
  rcases hp : postForm env testUrl (testBody env directory test) tr1 with ⟨o, tr2⟩
  rw [hp] at p1 p2
  simp only at p1 p2
  subst p1
  simp only
  rw [readPermutations_of_file env test directory stext _ ho4 hs, readPermutationsText,
    permutationsLoop_frame]
  rw [readPermutationsText] at hperm
  rw [hperm]
  simp only
  obtain ⟨q1, q2⟩ := pushLoop_ok env directory test hhttp perms
    (tr2 ++ [Event.fileOpen directory "solutions.csv".toList]) hpdf
  refine ⟨q1, ?_⟩
  rw [q2, requestsOf_append, p2, hreq1]
  simp [requestsOf]

/-- C8 (amended) on the end-to-end scenario with a server that answers 503 to everything:
the run returns and issues the test upload followed by the upload of permutation 0. -/
theorem main_request_sequence_witness :
    (main scenarioEnv ["dir".toList] []).1 = Outcome.ret () ∧
    (requestsOf (main scenarioEnv ["dir".toList] []).2).map Request.url =
      ["http://test-server-161210.appspot.com/test".toList,
       "http://test-server-161210.appspot.com/test/1000/permutation".toList] :=
  have h := main_request_sequence scenarioEnv "dir".toList
    "Titol;Exam A\nGenDate;1000\nNumPermutations;1\nTemps;90m\n".toList "0;ABAC\n".toList
    { Test.zero with ID := 1000, Title := "Exam A".toList, Temps := 90, GenDate := 1000,
                     NumPermutations := 1 }
    [{ Index := 0, Solutions := "ABAC".toList }]
    (fun _ _ => rfl) (fun _ _ _ _ => rfl) rfl rfl (by decide) (by decide)
    (fun _ _ => ⟨rfl, rfl⟩)
  ⟨h.1, by rw [h.2]; decide⟩

theorem clientLoop_redirect_loop (env : Env) (u : Str)
    (h : ∀ tr req, env.http tr req = Reply.response 302 (Location.target u) none)
    (ireq : Request) : ∀ (hops : Nat) (req : Request) (tr : List Event),
    (clientLoop env ireq hops req tr).1 = Outcome.ret Reply.transportError := by
  intro hops
  induction hops with
  | zero => intro req tr; rfl
  | succ n ih =>
    intro req tr
    have hb : redirectBehavior req.method 302 =
        some (if req.method ≠ "GET".toList ∧ req.method ≠ "HEAD".toList then "GET".toList
              else req.method, false) := by
      simp [redirectBehavior]
    simp only [clientLoop, h, hb]
    exact ih _ _

theorem postForm_redirect_loop (env : Env) (u url : Str) (body : List Part) (tr : List Event)
    (h : ∀ tr req, env.http tr req = Reply.response 302 (Location.target u) none) :
    (postForm env url body tr).1 = Outcome.exit 12 := by
  simp only [postForm, NewRequest, bind_apply, clientDo]
  have hl := clientLoop_redirect_loop env u h
    { method := "POST".toList, url := url, body := body } 10
    { method := "POST".toList, url := url, body := body } tr
  rcases hc : clientLoop env { method := "POST".toList, url := url, body := body } 10
    { method := "POST".toList, url := url, body := body } tr with ⟨o, tr1⟩
  rw [hc] at hl
  simp only at hl
  subst hl
  rfl

/-- C8 (as stated) fails.  In the end-to-end scenario every file opens, both files parse
and no request meets a transport error.  When the server answers each `POST` with status
302 and a `Location`, the client follows it: the run returns, but the requests issued are
`POST`, `GET`, `POST`, `GET`, not the two uploads alone.  When the server answers every
request with 302 and a `Location`, the client gives up on the test upload and the process
ends with exit code 12, so a status other than 200 does end the process. -/
theorem main_redirect_counterexample :
    (∀ tr req, redirectEnv.http tr req ≠ Reply.transportError ∧
      (redirectEnv.http tr req).completes = true) ∧
    (main redirectEnv ["dir".toList] []).1 = Outcome.ret () ∧
    (requestsOf (main redirectEnv ["dir".toList] []).2).map (fun r => (r.method, r.url)) =
      [("POST".toList, "http://test-server-161210.appspot.com/test".toList),
       ("GET".toList, "http://test-server-161210.appspot.com/done".toList),
       ("POST".toList, "http://test-server-161210.appspot.com/test/1000/permutation".toList),
       ("GET".toList, "http://test-server-161210.appspot.com/done".toList)] ∧
    (∀ tr req, redirectLoopEnv.http tr req ≠ Reply.transportError ∧
      (redirectLoopEnv.http tr req).completes = true) ∧
    (main redirectLoopEnv ["dir".toList] []).1 = Outcome.exit 12 := by
  refine ⟨?_, by decide, by decide, ?_, ?_⟩
  · intro tr req
    by_cases hm : req.method = "POST".toList
    · simp only [redirectEnv, hm, if_true]
      exact ⟨fun h => Reply.noConfusion h, rfl⟩
    · simp only [redirectEnv, hm, if_false]
      exact ⟨fun h => Reply.noConfusion h, rfl⟩
  · intro tr req
    exact ⟨fun h => Reply.noConfusion h, rfl⟩
  · obtain ⟨tr1, _, hmain⟩ := main_to_test_upload redirectLoopEnv "dir".toList
      "Titol;Exam A\nGenDate;1000\nNumPermutations;1\nTemps;90m\n".toList
      { Test.zero with ID := 1000, Title := "Exam A".toList, Temps := 90, GenDate := 1000,
                       NumPermutations := 1 }
      rfl rfl rfl rfl (by decide)
    rw [hmain, bind_apply]
    have hp := postForm_redirect_loop redirectLoopEnv
      "http://test-server-161210.appspot.com/done".toList testUrl
      (testBody redirectLoopEnv "dir".toList
        { Test.zero with ID := 1000, Title := "Exam A".toList, Temps := 90, GenDate := 1000,
                         NumPermutations := 1 }) tr1 (fun _ _ => rfl)
    rcases hc : postForm redirectLoopEnv testUrl
      (testBody redirectLoopEnv "dir".toList
        { Test.zero with ID := 1000, Title := "Exam A".toList, Temps := 90, GenDate := 1000,
                         NumPermutations := 1 }) tr1 with ⟨o, tr2⟩
    rw [hc] at hp
    simp only at hp
    subst hp
    rfl

end TestPush
